import Mathlib

/-!
Verification of the move/state engine of the tile-and-error board-reveal game.

The definitions below are a shallow embedding of `src/data.py`, `src/commands.py`
and the startup code of `src/bot.py`.  Python object mutation is modelled by
explicit state passing on a global state record `GState`; machine integers are
`Int`; `time.time()` values are rationals; fallible lookups return `Option` and
Python exceptions (such as `ord` applied to a string that is not a single
character) are modelled with `Except Unit`.
-/

namespace Bingo

/-- Python value for a coordinate pair.  The source stores coordinates either as
a tuple (built by `select_tile`: `(row_letter, col_number)`) or as a list (JSON
round trips and `create_board_template_from_json` produce lists).  Component
access and destructuring behave identically for both, but Python `==` (used by
dataclass equality and `list.remove`) distinguishes a tuple from a list, so the
representation is part of the model. -/
inductive PyCoord where
  | tup (row : String) (col : Int)
  | lst (row : String) (col : Int)
deriving DecidableEq, Repr

/-- Row component of a coordinate (`coord[0]`). -/
def PyCoord.row : PyCoord → String
  | .tup r _ => r
  | .lst r _ => r

/-- Column component of a coordinate (`coord[1]`). -/
def PyCoord.col : PyCoord → Int
  | .tup _ c => c
  | .lst _ c => c

/-- True when the coordinate is stored as a Python list. -/
def PyCoord.isList : PyCoord → Bool
  | .tup _ _ => false
  | .lst _ _ => true

/-- Tile type from `data.py`: `TileType = Union[Literal[1], Literal[2], Literal[3], Literal["bomb"]]`.
Constructor `one` is the literal `1` (kill-count), `two` is `2` (collection),
`three` is `3` (unique) and `bomb` is the string literal `"bomb"`. -/
inductive TileType where
  | one
  | two
  | three
  | bomb
deriving DecidableEq, Repr

/-- Tile dataclass from `data.py`. -/
structure Tile where
  coordinates : PyCoord
  tile_type : TileType
  drop_source : String
  drop : String
  alternative_drop : String
  count : Int
  notes : String
  description : String
  revealed : Bool := false
deriving DecidableEq, Repr

/-- MoveLog dataclass from `data.py` (one entry of the move log). -/
structure MoveLog where
  team_id : Int
  discord_id : Int
  coord : PyCoord
  timestamp : String
deriving DecidableEq, Repr

/-- Serialized JSON object for one move-log entry, as produced by
`MoveLog.to_dict`: the `coord` field is a two-element JSON array
`[row_letter, col_number]`, stored here as its two components. -/
structure MoveLogDict where
  team_id : Int
  discord_id : Int
  coord_row : String
  coord_col : Int
  timestamp : String
deriving DecidableEq, Repr

/-- Translation of `MoveLog.to_dict`: `list(self.coord)` turns the coordinate
into a JSON array regardless of its tuple or list representation. -/
def MoveLog.to_dict (m : MoveLog) : MoveLogDict :=
  { team_id := m.team_id
    discord_id := m.discord_id
    coord_row := m.coord.row
    coord_col := m.coord.col
    timestamp := m.timestamp }

/-- Translation of `MoveLog.from_dict`: `coord=data["coord"]` keeps the parsed
JSON array, so the coordinate of a loaded entry is a Python list. -/
def MoveLog.from_dict (d : MoveLogDict) : MoveLog :=
  { team_id := d.team_id
    discord_id := d.discord_id
    coord := .lst d.coord_row d.coord_col
    timestamp := d.timestamp }

/-- Member dataclass from `data.py`. -/
structure Member where
  rsn : String
  discord_id : Int
deriving DecidableEq, Repr

/-- Team dataclass from `data.py`. -/
structure Team where
  id : Int
  members : List Member
  board : List (List Tile) := []
deriving DecidableEq, Repr

/-- Process-wide mutable state: `data.teams`, `data.move_log`, the in-memory
cooldown dictionary `user_team_cooldowns` of `commands.py` (an insertion-ordered
mapping from `(user_id, team_id)` to the last-use timestamp), and the content of
the persisted file `move_log.json` (`none` when the file does not exist). -/
structure GState where
  teams : List Team
  move_log : List MoveLog
  cooldowns : List ((Int × Int) × ℚ)
  file : Option (List MoveLogDict)
deriving DecidableEq, Repr

/-- Translation of `save_move_log`: writes the serialized move log to the file. -/
def save_move_log (s : GState) : GState :=
  { s with file := some (s.move_log.map MoveLog.to_dict) }

/-- Translation of `load_move_log`: parses the file content, returning the empty
list when the file does not exist. -/
def load_move_log (file : Option (List MoveLogDict)) : List MoveLog :=
  match file with
  | none => []
  | some ds => ds.map MoveLog.from_dict

/-- Content-level form of `save_move_log`: the serialized entries written out. -/
def save_content (ml : List MoveLog) : List MoveLogDict :=
  ml.map MoveLog.to_dict

/-- Content-level form of `load_move_log` on an existing file. -/
def load_content (ds : List MoveLogDict) : List MoveLog :=
  ds.map MoveLog.from_dict

/-- Translation of `get_user_team`: first team having a member with the given
discord id. -/
def get_user_team (teams : List Team) (discord_id : Int) : Option Team :=
  teams.find? (fun t => t.members.any (fun m => m.discord_id == discord_id))

/-- Python `str.upper()` modelled per character (characters whose uppercase
form is a different single character are mapped, all others kept; multi-char
expansions of a few special letters are elided; no theorem depends on them). -/
def pyUpper (s : String) : String :=
  String.mk (s.data.map Char.toUpper)

/-- Python `str.strip()`: remove leading and trailing whitespace. -/
def pyStrip (s : String) : String :=
  String.mk (((s.data.dropWhile Char.isWhitespace).reverse.dropWhile
    Char.isWhitespace).reverse)

/-- Python `str.split(",")` on the character data: split at every comma. -/
def splitComma (l : List Char) : List (List Char) :=
  match l with
  | [] => [[]]
  | c :: rest =>
    if c = ',' then [] :: splitComma rest
    else
      match splitComma rest with
      | [] => [[c]]
      | g :: gs => (c :: g) :: gs

/-- Python `ord` on a string: defined only on single-character strings,
raising `TypeError` (here `none`) otherwise. -/
def pyOrd (s : String) : Option Nat :=
  match s.data with
  | [ch] => some ch.toNat
  | _ => none

/-- Index pair `(row_index, col_index)` computed by `get_tile`:
`ord(row_letter.upper()) - ord("A")` and `col_number - 1`.  `none` models the
`TypeError` that `ord` raises when the row string is not a single character. -/
def coordIdx (coord : PyCoord) : Option (Int × Int) :=
  (pyOrd (pyUpper coord.row)).map (fun (o : Nat) => ((o : Int) - 65, coord.col - 1))

/-- Translation of `get_tile`: returns the tile at the coordinate when the
indices are inside the 7x7 range, `ok none` otherwise; `error` models an
uncaught Python exception (`TypeError` from `ord`, or `IndexError` when the
board lists are shorter than the valid index). -/
def get_tile (board : List (List Tile)) (coord : PyCoord) : Except Unit (Option Tile) :=
  match coordIdx coord with
  | none => .error ()
  | some (ri, ci) =>
    if 0 ≤ ri ∧ ri < 7 ∧ 0 ≤ ci ∧ ci < 7 then
      match board[ri.toNat]? with
      | none => .error ()
      | some row =>
        match row[ci.toNat]? with
        | none => .error ()
        | some t => .ok (some t)
    else .ok none

/-- Functional rendering of the attribute mutation `tile.<field> = value` on the
tile object returned by a successful `get_tile`: writes the replacement tile at
the indices of the coordinate.  Only used right after `get_tile` returned
`ok (some tile)`, so the fallback branches are unreachable at call sites. -/
def write_tile (board : List (List Tile)) (coord : PyCoord) (t : Tile) : List (List Tile) :=
  match coordIdx coord with
  | none => board
  | some (ri, ci) =>
    match board[ri.toNat]? with
    | none => board
    | some row => board.set ri.toNat (row.set ci.toNat t)

/-- Row letter of a zero-based row index: `chr(ord("A") + row_index)`. -/
def letterOfRow (i : Nat) : String :=
  String.mk [Char.ofNat (65 + i)]

/-- Tile definition object from the static `tiles.json` input, mirroring the
JSON dict fields read by `create_board_template_from_json`; the `coordinates`
JSON array is stored as its two components. -/
structure TileDef where
  coordinates_row : String
  coordinates_col : Int
  tile_type : TileType
  drop_source : String
  drop : String
  alternative_drop : String
  count : Int
  notes : String
  description : String
  revealed : Bool
deriving DecidableEq, Repr

/-- Loop body of `create_board_template_from_json` for one grid position: use
the first matching definition if present, else the default kill-count tile. -/
def board_cell (json_data : List TileDef) (row_index col_index : Nat) : Tile :=
  match json_data.find? (fun td =>
      td.coordinates_row == letterOfRow row_index &&
      td.coordinates_col == (col_index : Int) + 1) with
  | some td =>
      { coordinates := .lst td.coordinates_row td.coordinates_col
        tile_type := td.tile_type
        drop_source := td.drop_source
        drop := td.drop
        alternative_drop := td.alternative_drop
        count := td.count
        notes := td.notes
        description := td.description
        revealed := td.revealed }
  | none =>
      { coordinates := .lst (letterOfRow row_index) ((col_index : Int) + 1)
        tile_type := .one
        drop_source := "General Graardor"
        drop := "Bandos Chestplate"
        alternative_drop := ""
        count := 1
        notes := ""
        description := "Kill count or unique item drop"
        revealed := false }

/-- Translation of `create_board_template_from_json`: for each of the 49
canonical coordinates, build the cell described by `board_cell`. -/
def create_board_template_from_json (json_data : List TileDef) : List (List Tile) :=
  (List.range 7).map (fun (row_index : Nat) =>
    (List.range 7).map (fun (col_index : Nat) => board_cell json_data row_index col_index))

/-- Startup of `bot.py`: load the persisted move log, then build the team list
from the static tile definitions (`load_dummy_data_from_json` creates a single
team with id 1 and no members; the loaded log is never projected onto the
boards).  Cooldowns start empty. -/
def startup (file : Option (List MoveLogDict)) (tile_defs : List TileDef) : GState :=
  { teams := [{ id := 1, members := [], board := create_board_template_from_json tile_defs }]
    move_log := load_move_log file
    cooldowns := []
    file := file }

/-- Python `int(s)` on an already-stripped string: an optional sign followed by
at least one ASCII digit (underscore digit grouping and non-ASCII digit forms
accepted by Python are elided; no theorem below depends on them). -/
def pyInt (s : String) : Option Int :=
  match s.data with
  | [] => none
  | '-' :: ds =>
      if !ds.isEmpty && ds.all Char.isDigit then
        some (-(ds.foldl (fun n c => n * 10 + (c.toNat - 48)) 0 : Nat))
      else none
  | '+' :: ds =>
      if !ds.isEmpty && ds.all Char.isDigit then
        some ((ds.foldl (fun n c => n * 10 + (c.toNat - 48)) 0 : Nat))
      else none
  | ds =>
      if ds.all Char.isDigit then
        some ((ds.foldl (fun n c => n * 10 + (c.toNat - 48)) 0 : Nat))
      else none

/-- Coordinate parsing step of `select_tile`: split on a comma into exactly two
parts, strip and uppercase the row, convert the column with `int`; any failure
is caught and reported as an invalid format. -/
def parse_coord (coord_str : String) : Option (String × Int) :=
  match (splitComma coord_str.data).map String.mk with
  | [a, b] =>
      match pyInt (pyStrip b) with
      | some n => some (pyUpper (pyStrip a), n)
      | none => none
  | _ => none

/-- Cooldown window from `commands.py`: `20 * 60` seconds. -/
def COOLDOWN_DURATION : ℚ := 20 * 60

/-- Python dict assignment `d[k] = v` on the insertion-ordered cooldown map:
replaces the value in place when the key is present, appends otherwise. -/
def dict_set (d : List ((Int × Int) × ℚ)) (k : Int × Int) (v : ℚ) :
    List ((Int × Int) × ℚ) :=
  if d.any (fun kv => kv.1 == k) then
    d.map (fun kv => if kv.1 == k then (k, v) else kv)
  else d ++ [(k, v)]

/-- Mutation of the first team containing the given user (the team object that
`get_user_team` returns is mutated in place in the source). -/
def update_first_user_team (teams : List Team) (discord_id : Int) (f : Team → Team) :
    List Team :=
  match teams with
  | [] => []
  | t :: rest =>
    if t.members.any (fun m => m.discord_id == discord_id) then f t :: rest
    else t :: update_first_user_team rest discord_id f

/-- Mutation of the first team with the given id (the team object found by
`next(t for t in data.teams if t.id == team_id)` is mutated in place). -/
def update_first_team_by_id (teams : List Team) (team_id : Int) (f : Team → Team) :
    List Team :=
  match teams with
  | [] => []
  | t :: rest =>
    if t.id == team_id then f t :: rest
    else t :: update_first_team_by_id rest team_id f

/-- Outcome of the `select` command, one constructor per user-facing message of
`select_tile`; `crashed` models an uncaught exception (no message, no state
mutation beyond what already happened). -/
inductive Outcome where
  | notOnTeam
  | onCooldown
  | invalidFormat
  | invalidCoordinates
  | alreadyRevealed
  | success (t : Tile)
  | crashed
deriving DecidableEq, Repr

/-- True exactly on the success outcome. -/
def Outcome.isSuccess : Outcome → Bool
  | .success _ => true
  | _ => false

/-- Translation of the `select` command handler `select_tile` of `commands.py`:
resolve the author team, garbage-collect expired cooldown entries, deny when
any entry of the team is still inside the window, parse the coordinate, look up
the tile, reject an already revealed tile, otherwise reveal it, append a move
log entry, persist the log and record the cooldown timestamp.  `now` is the
`time.time()` clock value and `ts` the `datetime.utcnow().isoformat()` string. -/
def select_tile (s : GState) (author_id : Int) (coord_str : String) (now : ℚ) (ts : String) :
    GState × Outcome :=
  match get_user_team s.teams author_id with
  | none => (s, .notOnTeam)
  | some team =>
    let cds := s.cooldowns.filter (fun kv => !(decide (now - kv.2 > COOLDOWN_DURATION)))
    let s1 : GState := { s with cooldowns := cds }
    if cds.any (fun kv => kv.1.2 == team.id && decide (now - kv.2 < COOLDOWN_DURATION)) then
      (s1, .onCooldown)
    else
      match parse_coord coord_str with
      | none => (s1, .invalidFormat)
      | some (r, c) =>
        match get_tile team.board (.tup r c) with
        | .error _ => (s1, .crashed)
        | .ok none => (s1, .invalidCoordinates)
        | .ok (some tile) =>
          if tile.revealed then (s1, .alreadyRevealed)
          else
            let tile1 := { tile with revealed := true }
            let teams1 := update_first_user_team s1.teams author_id
              (fun t => { t with board := write_tile t.board (.tup r c) tile1 })
            let entry : MoveLog :=
              { team_id := team.id, discord_id := author_id
                coord := .tup r c, timestamp := ts }
            let s2 : GState := { s1 with teams := teams1, move_log := s1.move_log ++ [entry] }
            let s3 := save_move_log s2
            ({ s3 with cooldowns := dict_set s3.cooldowns (author_id, team.id) now },
             .success tile1)

/-- Outcome of the `undo_move` command, one constructor per user-facing
message; `crashed` models the uncaught exception raised by `get_tile` on a
malformed logged coordinate. -/
inductive UndoOutcome where
  | noMoves
  | teamNotFound
  | tileNotFound
  | crashed
  | undone (m : MoveLog)
deriving DecidableEq, Repr

/-- True exactly on the undone outcome. -/
def UndoOutcome.isUndone : UndoOutcome → Bool
  | .undone _ => true
  | _ => false

/-- Translation of the `undo_move` command handler of `commands.py` (the
admin-permission gate is the external dispatcher's concern): find the last move
of the team in log order, resolve the team and the tile, set the tile
unrevealed, remove the first log entry equal to that move (`list.remove`), and
persist. -/
def undo_move (s : GState) (team_id : Int) : GState × UndoOutcome :=
  let team_moves := s.move_log.filter (fun m => m.team_id == team_id)
  match team_moves.getLast? with
  | none => (s, .noMoves)
  | some last_move =>
    match s.teams.find? (fun t => t.id == team_id) with
    | none => (s, .teamNotFound)
    | some team =>
      match get_tile team.board last_move.coord with
      | .error _ => (s, .crashed)
      | .ok none => (s, .tileNotFound)
      | .ok (some tile) =>
        let teams1 := update_first_team_by_id s.teams team_id
          (fun t => { t with
            board := write_tile t.board last_move.coord { tile with revealed := false } })
        let s1 : GState := { s with teams := teams1, move_log := s.move_log.erase last_move }
        (save_move_log s1, .undone last_move)

/-- Translation of the `reset_cooldown` command handler: delete every cooldown
entry whose key has the given team id. -/
def reset_cooldown (s : GState) (team_id : Int) : GState :=
  { s with cooldowns := s.cooldowns.filter (fun kv => !(kv.1.2 == team_id)) }

/-- Per-type point values of `render_board_view` in `data.py`:
`{1: 1, 2: 2, 3: 3, "bomb": 4}`. -/
def scoreOf : TileType → Nat
  | .one => 1
  | .two => 2
  | .three => 3
  | .bomb => 4

/-- Translation of `render_board_view` of `data.py`, modelling the board
mutation and the reported total score (the textual emoji grid built around them
is elided): every tile whose coordinate components appear in the given team's
subset of the move log is marked revealed, and the total is the sum of the
per-type points over the tiles that are revealed after that marking. -/
def render_board_view (ml : List MoveLog) (board : List (List Tile)) (team_id : Int) :
    List (List Tile) × Nat :=
  let team_moves := ml.filter (fun m => m.team_id == team_id)
  let revealed_coords := team_moves.map (fun m => (m.coord.row, m.coord.col))
  let board1 := board.map (fun row => row.map (fun t =>
    if revealed_coords.contains (t.coordinates.row, t.coordinates.col) then
      { t with revealed := true }
    else t))
  let total := board1.foldl (fun acc row =>
    row.foldl (fun a t => if t.revealed then a + scoreOf t.tile_type else a) acc) 0
  (board1, total)

/-- Loop body of `apply_move_log_to_board`: walk the full move log in order and
set `revealed = True` on the tile of every entry of the team; `error` models
the uncaught exception `get_tile` raises on a malformed logged coordinate. -/
def apply_moves (ml : List MoveLog) (tid : Int) (board : List (List Tile)) :
    Except Unit (List (List Tile)) :=
  match ml with
  | [] => .ok board
  | m :: rest =>
    if m.team_id == tid then
      match get_tile board m.coord with
      | .error _ => .error ()
      | .ok none => apply_moves rest tid board
      | .ok (some t) => apply_moves rest tid (write_tile board m.coord { t with revealed := true })
    else apply_moves rest tid board

/-- Reset step of `apply_move_log_to_board`: every tile unrevealed. -/
def reset_board (board : List (List Tile)) : List (List Tile) :=
  board.map (fun row => row.map (fun t => { t with revealed := false }))

/-- Translation of `apply_move_log_to_board` of `data.py`: reset every tile of
the team's board, then replay the move log. -/
def apply_move_log_to_board (ml : List MoveLog) (team : Team) : Except Unit Team :=
  (apply_moves ml team.id (reset_board team.board)).map (fun b => { team with board := b })

/-- State effect of the commands that call `data.apply_move_log_to_board(team)`
on the (first) team with the given id.  The source raises an uncaught exception
on a malformed logged coordinate; that branch is unreachable under the
invariant proved below and is modelled as leaving the team unchanged. -/
def project_team (s : GState) (team_id : Int) : GState :=
  { s with teams := update_first_team_by_id s.teams team_id (fun t =>
      match apply_move_log_to_board s.move_log t with
      | .ok t1 => t1
      | .error _ => t) }

/-- State effect of the commands that call `render_board_view(team.board,
team.id)` on the (first) team with the given id: rendering marks logged tiles
revealed as a side effect. -/
def render_team (s : GState) (team_id : Int) : GState :=
  { s with teams := update_first_team_by_id s.teams team_id (fun t =>
      { t with board := (render_board_view s.move_log t.board team_id).1 }) }

/-- Engine operations named by the invariant claim: reveal (the `select`
command), undo, projection (log replay onto a team board) and render. -/
inductive Op where
  | reveal (author_id : Int) (coord_str : String) (now : ℚ) (ts : String)
  | undo (team_id : Int)
  | project (team_id : Int)
  | render (team_id : Int)

/-- One engine operation applied to the global state. -/
def step (s : GState) (op : Op) : GState :=
  match op with
  | .reveal a cs now ts => (select_tile s a cs now ts).1
  | .undo tid => (undo_move s tid).1
  | .project tid => project_team s tid
  | .render tid => render_team s tid

/-- A sequence of engine operations applied in order. -/
def run (s : GState) (ops : List Op) : GState :=
  ops.foldl step s

/-- Canonical coordinate: the row is a single character in `A`..`G` and the
column is in 1..7.  Every entry appended by a successful reveal is canonical. -/
def canonCoord (p : PyCoord) : Bool :=
  (match p.row.data with
   | [ch] => decide (65 ≤ ch.toNat) && decide (ch.toNat ≤ 71)
   | _ => false) && decide (1 ≤ p.col) && decide (p.col ≤ 7)

/-- Tile at a zero-based position of a board. -/
def tileAt (board : List (List Tile)) (i j : Nat) : Option Tile :=
  match board[i]? with
  | none => none
  | some row => row[j]?

/-- Well-formed board: a 7x7 grid whose tile at position `(i, j)` carries the
canonical coordinate (letter of row `i`, `j + 1`), as `create_board_template_from_json`
guarantees. -/
def wfBoard (board : List (List Tile)) : Bool :=
  board.length == 7 &&
  (List.range 7).all (fun i =>
    match board[i]? with
    | none => false
    | some row =>
      row.length == 7 &&
      (List.range 7).all (fun j =>
        match row[j]? with
        | none => false
        | some t =>
          t.coordinates.row == letterOfRow i && t.coordinates.col == (j : Int) + 1))

/-- Membership of a coordinate (given by its components) in the subset of the
move log belonging to a team. -/
def coordIn (ml : List MoveLog) (tid : Int) (r : String) (c : Int) : Bool :=
  ml.any (fun m => m.team_id == tid && m.coord.row == r && m.coord.col == c)

/-- Marking step of the board projection: a tile becomes revealed when its
coordinate appears in the team's subset of the move log, else is unchanged. -/
def markIf (ml : List MoveLog) (tid : Int) (t : Tile) : Tile :=
  if coordIn ml tid t.coordinates.row t.coordinates.col then { t with revealed := true }
  else t

/-- Consistency of one tile with the move log: the revealed flag equals
membership of the tile's coordinate in the team's log subset. -/
def tileOK (ml : List MoveLog) (tid : Int) (t : Tile) : Bool :=
  t.revealed == coordIn ml tid t.coordinates.row t.coordinates.col

/-- Consistency of a whole board with the move log. -/
def boardOK (ml : List MoveLog) (tid : Int) (board : List (List Tile)) : Bool :=
  board.all (fun row => row.all (tileOK ml tid))

/-- Global invariant: team ids are distinct, boards are well formed, logged
coordinates are canonical, every tile's revealed flag agrees with the move log
(the claimed direct-mutation versus log-replay agreement), and no team has two
log entries with the same coordinate. -/
def GInv (s : GState) : Prop :=
  (s.teams.map Team.id).Nodup ∧
  (∀ t ∈ s.teams, wfBoard t.board = true) ∧
  (∀ m ∈ s.move_log, canonCoord m.coord = true) ∧
  (∀ t ∈ s.teams, boardOK s.move_log t.id t.board = true) ∧
  List.Pairwise (fun m1 m2 : MoveLog => m1.team_id = m2.team_id →
    (m1.coord.row, m1.coord.col) ≠ (m2.coord.row, m2.coord.col)) s.move_log

section HelperLemmas

/-- Round trip of `Char.ofNat` over `Char.toNat` below the surrogate range. -/
theorem char_toNat_ofNat (n : Nat) (h : n < 0xd800) : (Char.ofNat n).toNat = n := by
  simp [Char.ofNat, Char.toNat]
  rw [dif_pos (Or.inl h)]
  rfl

/-- Unfolding equation for `Char.toUpper`. -/
theorem char_toUpper_eq (c : Char) :
    c.toUpper = if c.toNat ≥ 97 ∧ c.toNat ≤ 122 then Char.ofNat (c.toNat - 32) else c := by
  simp only [Char.toUpper]

/-- Uppercasing is idempotent. -/
theorem char_toUpper_toUpper (c : Char) : c.toUpper.toUpper = c.toUpper := by
  by_cases h : c.toNat ≥ 97 ∧ c.toNat ≤ 122
  · have e1 : c.toUpper = Char.ofNat (c.toNat - 32) := by rw [char_toUpper_eq, if_pos h]
    have e2 : (Char.ofNat (c.toNat - 32)).toNat = c.toNat - 32 := char_toNat_ofNat _ (by omega)
    rw [e1, char_toUpper_eq, if_neg (by rw [e2]; omega)]
  · have e1 : c.toUpper = c := by rw [char_toUpper_eq, if_neg h]
    rw [e1, e1]

/-- Characters in `A`..`G` are fixed by `Char.toUpper`. -/
theorem char_toUpper_of_upper (c : Char) (h1 : 65 ≤ c.toNat) (h2 : c.toNat ≤ 71) :
    c.toUpper = c := by
  rw [char_toUpper_eq, if_neg (by omega)]

/-- Character data of an uppercased string. -/
theorem pyUpper_data (s : String) : (pyUpper s).data = s.data.map Char.toUpper := rfl

end HelperLemmas

end Bingo

namespace Bingo

theorem pyOrd_toUpper_single (c : Char) :
    pyOrd (pyUpper (String.mk [c])) = some c.toUpper.toNat := rfl

theorem coordIdx_single (c : Char) (n : Int) :
    coordIdx (.tup (String.mk [c]) n) = some (((c.toUpper.toNat : Int)) - 65, n - 1) := by
  unfold coordIdx PyCoord.row PyCoord.col
  rw [pyOrd_toUpper_single]
  rfl

theorem board_cell_coords (defs : List TileDef) (i j : Nat) :
    (board_cell defs i j).coordinates.row = letterOfRow i ∧
      (board_cell defs i j).coordinates.col = (j : Int) + 1 := by
  unfold board_cell
  rcases hf : defs.find? (fun td =>
      td.coordinates_row == letterOfRow i && td.coordinates_col == (j : Int) + 1) with _ | td
  · rw [hf]
    exact ⟨rfl, rfl⟩
  · rw [hf]
    have hp := List.find?_some hf
    simp only [Bool.and_eq_true, beq_iff_eq] at hp
    exact ⟨hp.1, hp.2⟩

theorem create_board_getElem (defs : List TileDef) (i j : Nat) (hi : i < 7) (hj : j < 7) :
    (create_board_template_from_json defs)[i]? =
        some ((List.range 7).map (fun (col_index : Nat) => board_cell defs i col_index)) ∧
      ((List.range 7).map (fun (col_index : Nat) => board_cell defs i col_index))[j]? =
        some (board_cell defs i j) := by
  constructor
  · simp only [create_board_template_from_json]
    rw [List.getElem?_map, List.getElem?_range hi, Option.map_some']
  · rw [List.getElem?_map, List.getElem?_range hj, Option.map_some']

end Bingo

namespace Bingo

/-- C9: on a board built by `create_board_template_from_json`, `get_tile`
returns, for every valid coordinate (row letter `A`..`G`, column number 1..7),
a tile whose coordinates equal the queried coordinate; and for every
out-of-range input (a single ASCII row character whose uppercased form is
outside `A`..`G`, or a column outside 1..7) it returns no tile. -/
theorem C9_lookup_valid_and_out_of_range (defs : List TileDef) (c : Char) (n : Int) :
    (65 ≤ c.toNat → c.toNat ≤ 71 → 1 ≤ n → n ≤ 7 →
      ∃ t, get_tile (create_board_template_from_json defs) (.tup (String.mk [c]) n) =
          .ok (some t) ∧
        t.coordinates.row = String.mk [c] ∧ t.coordinates.col = n) ∧
    (c.toNat < 128 → ¬(65 ≤ c.toUpper.toNat ∧ c.toUpper.toNat ≤ 71 ∧ 1 ≤ n ∧ n ≤ 7) →
      get_tile (create_board_template_from_json defs) (.tup (String.mk [c]) n) = .ok none) := by
  constructor
  · intro h1 h2 h3 h4
    have hu : c.toUpper = c := char_toUpper_of_upper c h1 h2
    have hidx : coordIdx (.tup (String.mk [c]) n) = some (((c.toNat : Int)) - 65, n - 1) := by
      rw [coordIdx_single, hu]
    have hri : ((c.toNat : Int) - 65).toNat = c.toNat - 65 := by omega
    have hci : ((n : Int) - 1).toNat = (n - 1).toNat := rfl
    have hilt : c.toNat - 65 < 7 := by omega
    have hjlt : (n - 1).toNat < 7 := by omega
    obtain ⟨hrow, htile⟩ := create_board_getElem defs (c.toNat - 65) (n - 1).toNat hilt hjlt
    refine ⟨board_cell defs (c.toNat - 65) (n - 1).toNat, ?_, ?_, ?_⟩
    · simp only [get_tile, hidx]
      rw [if_pos (by refine ⟨by omega, by omega, by omega, by omega⟩)]
      simp only [hri, hrow, htile]
    · rw [(board_cell_coords defs _ _).1]
      unfold letterOfRow
      congr 1
      have : 65 + (c.toNat - 65) = c.toNat := by omega
      rw [this, Char.ofNat_toNat]
    · rw [(board_cell_coords defs _ _).2]
      omega
  · intro hascii hrange
    simp only [get_tile, coordIdx_single]
    rw [if_neg]
    intro hcond
    apply hrange
    obtain ⟨a, b, d, e⟩ := hcond
    refine ⟨by omega, by omega, by omega, by omega⟩

/-- Witness for C9 at a concrete valid coordinate (`A`, 1) on the empty
definition list, and at the out-of-range row `H`. -/
theorem C9_lookup_witness :
    (∃ t, get_tile (create_board_template_from_json []) (.tup (String.mk [ 'A' ]) 1) =
        .ok (some t) ∧
      t.coordinates.row = String.mk [ 'A' ] ∧ t.coordinates.col = 1) ∧
    get_tile (create_board_template_from_json []) (.tup (String.mk [ 'H' ]) 1) = .ok none :=
  ⟨(C9_lookup_valid_and_out_of_range [] 'A' 1).1 (by decide) (by decide) (by decide) (by decide),
   (C9_lookup_valid_and_out_of_range [] 'H' 1).2 (by decide) (by decide)⟩

end Bingo

namespace Bingo

/-- C2, counterexample: `save` followed by `load` does not reproduce an equal
sequence of entries.  An entry appended by `select_tile` stores its coordinate
as a Python tuple; `from_dict` keeps the parsed JSON array, so the loaded
entry's coordinate is a list, and dataclass equality (which compares the tuple
`("A", 1)` with the list `["A", 1]`) reports the entries unequal. -/
theorem C2_round_trip_counterexample :
    load_content (save_content
      [{ team_id := 1, discord_id := 2, coord := .tup "A" 1,
         timestamp := "2024-01-01T00:00:00" }]) ≠
      [{ team_id := 1, discord_id := 2, coord := .tup "A" 1,
         timestamp := "2024-01-01T00:00:00" }] := by
  decide

/-- C2 (amended): `save(load())` is the identity on persisted content;
`load` after `save` preserves every entry's team id, discord id, coordinate
row and column, and timestamp, in order (the serialized forms coincide), and
is the exact identity on a log whose coordinates are already in list
representation — in particular on any previously loaded log. -/
theorem C2_round_trip (ds : List MoveLogDict) (ml : List MoveLog)
    (h : ∀ m ∈ ml, m.coord.isList = true) :
    save_content (load_content ds) = ds ∧
    (∀ ml2 : List MoveLog,
      (load_content (save_content ml2)).map MoveLog.to_dict = ml2.map MoveLog.to_dict) ∧
    load_content (save_content ml) = ml := by
  refine ⟨?_, ?_, ?_⟩
  · induction ds with
    | nil => rfl
    | cons d rest ih =>
      simp only [load_content, save_content, List.map_cons] at ih ⊢
      rw [ih]
      rfl
  · intro ml2
    induction ml2 with
    | nil => rfl
    | cons m rest ih =>
      simp only [load_content, save_content, List.map_cons] at ih ⊢
      rw [ih]
      rfl
  · induction ml with
    | nil => rfl
    | cons m rest ih =>
      have hm : m.coord.isList = true := h m (by simp)
      have hrest := ih (fun x hx => h x (by simp [hx]))
      simp only [load_content, save_content, List.map_cons] at hrest ⊢
      rw [hrest]
      rcases hc : m.coord with ⟨r, co⟩ | ⟨r, co⟩
      · rw [hc] at hm
        simp [PyCoord.isList] at hm
      · simp only [MoveLog.to_dict, MoveLog.from_dict, hc, PyCoord.row, PyCoord.col]
        rw [← hc]

/-- Witness for C2 at a concrete one-entry log in list representation. -/
theorem C2_round_trip_witness :
    load_content (save_content
      [{ team_id := 3, discord_id := 4, coord := .lst "B" 2, timestamp := "t" }]) =
      [{ team_id := 3, discord_id := 4, coord := .lst "B" 2, timestamp := "t" }] :=
  (C2_round_trip []
    [{ team_id := 3, discord_id := 4, coord := .lst "B" 2, timestamp := "t" }]
    (by decide)).2.2

theorem undo_move_fail_frame (s : GState) (team_id : Int)
    (h : (undo_move s team_id).2.isUndone = false) :
    (undo_move s team_id).1 = s := by
  simp only [undo_move] at h ⊢
  rcases h1 : (s.move_log.filter (fun m => m.team_id == team_id)).getLast? with _ | lm
  · simp [h1]
  · simp only [h1] at h ⊢
    rcases h2 : s.teams.find? (fun t => t.id == team_id) with _ | team
    · simp [h2]
    · simp only [h2] at h ⊢
      rcases h3 : get_tile team.board lm.coord with e | ot
      · simp [h3]
      · rcases ot with _ | tile
        · simp [h3]
        · rw [h3] at h
          simp [UndoOutcome.isUndone] at h

/-- C10: undo is atomic on error: whenever `undo_move` does not succeed (no
moves for the team, team not found, tile not found, or the exception case on a
malformed logged coordinate), it returns the global state — move log, every
board's revealed flags, cooldowns and the persisted file — unchanged. -/
theorem C10_undo_atomic (s : GState) (team_id : Int)
    (h : (undo_move s team_id).2.isUndone = false) :
    (undo_move s team_id).1 = s :=
  undo_move_fail_frame s team_id h

/-- Witness for C10 at a concrete state with no moves for team 2. -/
theorem C10_undo_atomic_witness :
    (undo_move
      { teams := [{ id := 1, members := [{ rsn := "a", discord_id := 5 }], board := [] }]
        move_log := [{ team_id := 1, discord_id := 5, coord := .lst "A" 1, timestamp := "t" }]
        cooldowns := []
        file := none } 2).1 =
      { teams := [{ id := 1, members := [{ rsn := "a", discord_id := 5 }], board := [] }]
        move_log := [{ team_id := 1, discord_id := 5, coord := .lst "A" 1, timestamp := "t" }]
        cooldowns := []
        file := none } :=
  C10_undo_atomic _ 2 (by decide)

end Bingo

namespace Bingo

theorem contains_pair_eq_coordIn (ml : List MoveLog) (tid : Int) (r : String) (c : Int) :
    (((ml.filter (fun m => m.team_id == tid)).map
        (fun m => (m.coord.row, m.coord.col))).contains (r, c)) = coordIn ml tid r c := by
  rw [Bool.eq_iff_iff]
  simp only [List.contains, coordIn, List.any_eq_true, List.elem_eq_true_of_mem]
  constructor
  · intro h
    have h2 : (r, c) ∈ (ml.filter (fun m => m.team_id == tid)).map
        (fun m => (m.coord.row, m.coord.col)) := by
      simpa using List.mem_of_elem_eq_true h
    obtain ⟨m, hm, he⟩ := List.mem_map.mp h2
    obtain ⟨hml, hteam⟩ := List.mem_filter.mp hm
    refine ⟨m, hml, ?_⟩
    obtain ⟨hr, hc⟩ := Prod.ext_iff.mp he
    simp only [] at hr hc
    simp [hteam, hr, hc]
  · intro ⟨m, hml, hp⟩
    simp only [Bool.and_eq_true, beq_iff_eq] at hp
    apply List.elem_eq_true_of_mem
    apply List.mem_map.mpr
    refine ⟨m, List.mem_filter.mpr ⟨hml, by simp [hp.1.1]⟩, by simp [hp.1.2, hp.2]⟩

theorem foldl_score_row (row : List Tile) (a : Nat) :
    row.foldl (fun b t => if t.revealed then b + scoreOf t.tile_type else b) a =
      a + (((row.filter (fun t => t.revealed)).map (fun t => scoreOf t.tile_type)).sum) := by
  induction row generalizing a with
  | nil => simp
  | cons t rest ih =>
    by_cases h : t.revealed <;> simp [h, ih] <;> omega

theorem foldl_score_board (b : List (List Tile)) (a : Nat) :
    b.foldl (fun acc row =>
        row.foldl (fun x t => if t.revealed then x + scoreOf t.tile_type else x) acc) a =
      a + (((b.flatten.filter (fun t => t.revealed)).map (fun t => scoreOf t.tile_type)).sum) := by
  induction b generalizing a with
  | nil => simp
  | cons row rest ih =>
    rw [List.foldl_cons, ih, foldl_score_row]
    simp only [List.flatten_cons, List.filter_append, List.map_append, List.sum_append]
    omega

/-- C7: rendering marks as revealed every tile whose coordinate appears in the
given team's subset of the move log, and the reported total score is the sum,
over the tiles revealed after that marking, of the fixed per-type point values
(kill count 1, collection 2, unique 3, bomb 4). -/
theorem C7_render_marks_and_scores (ml : List MoveLog) (board : List (List Tile))
    (team_id : Int) :
    (∀ row ∈ (render_board_view ml board team_id).1, ∀ t ∈ row,
      coordIn ml team_id t.coordinates.row t.coordinates.col = true → t.revealed = true) ∧
    (render_board_view ml board team_id).2 =
      ((((render_board_view ml board team_id).1).flatten.filter (fun t => t.revealed)).map
        (fun t => scoreOf t.tile_type)).sum := by
  constructor
  · intro row hrow t ht hin
    simp only [render_board_view] at hrow
    obtain ⟨row0, hrow0, hrowe⟩ := List.mem_map.mp hrow
    subst hrowe
    obtain ⟨t0, ht0, hte⟩ := List.mem_map.mp ht
    by_cases hc : (((ml.filter (fun m => m.team_id == team_id)).map
        (fun m => (m.coord.row, m.coord.col))).contains
          (t0.coordinates.row, t0.coordinates.col)) = true
    · rw [if_pos hc] at hte
      rw [← hte]
    · rw [if_neg hc] at hte
      subst hte
      rw [contains_pair_eq_coordIn] at hc
      exact absurd hin hc
  · simp only [render_board_view]
    rw [foldl_score_board]
    simp

/-- Witness for C7: a one-tile board whose tile is logged for team 1 gets the
tile marked revealed and a reported score of 1. -/
theorem C7_render_witness :
    (({ coordinates := .lst "A" 1, tile_type := .one, drop_source := "s", drop := "d",
        alternative_drop := "", count := 1, notes := "", description := "",
        revealed := true } : Tile)).revealed = true ∧
    (render_board_view [{ team_id := 1, discord_id := 9, coord := .tup "A" 1, timestamp := "t" }]
      [[{ coordinates := .lst "A" 1, tile_type := .one, drop_source := "s", drop := "d",
          alternative_drop := "", count := 1, notes := "", description := "",
          revealed := false }]] 1).2 = 1 := by
  have h := C7_render_marks_and_scores
    [{ team_id := 1, discord_id := 9, coord := .tup "A" 1, timestamp := "t" }]
    [[{ coordinates := .lst "A" 1, tile_type := .one, drop_source := "s", drop := "d",
        alternative_drop := "", count := 1, notes := "", description := "",
        revealed := false }]] 1
  have hb : (render_board_view
      [{ team_id := 1, discord_id := 9, coord := .tup "A" 1, timestamp := "t" }]
      [[{ coordinates := .lst "A" 1, tile_type := .one, drop_source := "s", drop := "d",
          alternative_drop := "", count := 1, notes := "", description := "",
          revealed := false }]] 1).1 =
      [[{ coordinates := .lst "A" 1, tile_type := .one, drop_source := "s", drop := "d",
          alternative_drop := "", count := 1, notes := "", description := "",
          revealed := true }]] := by decide
  refine ⟨?_, ?_⟩
  · refine h.1
      [{ coordinates := .lst "A" 1, tile_type := .one, drop_source := "s", drop := "d",
         alternative_drop := "", count := 1, notes := "", description := "",
         revealed := true }] ?_ _ (List.mem_singleton.mpr rfl) (by decide)
    rw [hb]
    exact List.mem_singleton.mpr rfl
  · rw [h.2, hb]
    decide

end Bingo

namespace Bingo

theorem set_of_getElem? {α : Type} (l : List α) (i : Nat) (a : α) (h : l[i]? = some a) :
    l.set i a = l := by
  apply List.ext_getElem?
  intro n
  rw [List.getElem?_set]
  by_cases hin : i = n
  · subst hin
    rw [if_pos rfl, if_pos ((List.getElem?_eq_some_iff.mp h).1), h]
  · rw [if_neg hin]

theorem write_tile_eq (board : List (List Tile)) (coord : PyCoord) (ri ci : Int)
    (row : List Tile) (t2 : Tile)
    (hidx : coordIdx coord = some (ri, ci))
    (hrow : board[ri.toNat]? = some row) :
    write_tile board coord t2 = board.set ri.toNat (row.set ci.toNat t2) := by
  unfold write_tile
  simp only [hidx, hrow]

theorem get_tile_some_inv (board : List (List Tile)) (coord : PyCoord) (t : Tile)
    (h : get_tile board coord = .ok (some t)) :
    ∃ (ri ci : Int) (row : List Tile), coordIdx coord = some (ri, ci) ∧
      (0 ≤ ri ∧ ri < 7 ∧ 0 ≤ ci ∧ ci < 7) ∧
      board[ri.toNat]? = some row ∧ row[ci.toNat]? = some t ∧
      ∀ t2, write_tile board coord t2 = board.set ri.toNat (row.set ci.toNat t2) := by
  unfold get_tile at h
  rcases hidx : coordIdx coord with _ | ⟨ri, ci⟩
  · simp only [hidx] at h
    exact absurd h (by simp)
  · simp only [hidx] at h
    by_cases hrange : 0 ≤ ri ∧ ri < 7 ∧ 0 ≤ ci ∧ ci < 7
    · rw [if_pos hrange] at h
      rcases hrow : board[ri.toNat]? with _ | row
      · simp only [hrow] at h
        exact absurd h (by simp)
      · simp only [hrow] at h
        rcases ht : row[ci.toNat]? with _ | t0
        · simp only [ht] at h
          exact absurd h (by simp)
        · simp only [ht] at h
          have : t0 = t := by
            have := h
            simp only [Except.ok.injEq, Option.some.injEq] at this
            exact this
          subst this
          refine ⟨ri, ci, row, rfl, hrange, hrow, ht, ?_⟩
          exact fun t2 => write_tile_eq board coord ri ci row t2 hidx hrow
    · rw [if_neg hrange] at h
      simp at h

theorem get_tile_write_tile (board : List (List Tile)) (coord : PyCoord) (t t2 : Tile)
    (h : get_tile board coord = .ok (some t)) :
    get_tile (write_tile board coord t2) coord = .ok (some t2) := by
  obtain ⟨ri, ci, row, hidx, hrange, hrow, ht, hw⟩ := get_tile_some_inv _ _ _ h
  rw [hw]
  simp only [get_tile, hidx]
  rw [if_pos hrange]
  simp only [List.getElem?_set_self ((List.getElem?_eq_some_iff.mp hrow).1),
    List.getElem?_set_self ((List.getElem?_eq_some_iff.mp ht).1)]

theorem write_tile_write_tile (board : List (List Tile)) (coord : PyCoord) (t t2 t3 : Tile)
    (h : get_tile board coord = .ok (some t)) :
    write_tile (write_tile board coord t2) coord t3 = write_tile board coord t3 := by
  obtain ⟨ri, ci, row, hidx, hrange, hrow, ht, hw⟩ := get_tile_some_inv _ _ _ h
  have hlen : ri.toNat < board.length := (List.getElem?_eq_some_iff.mp hrow).1
  rw [hw t2]
  rw [write_tile_eq _ coord ri ci (row.set ci.toNat t2) t3 hidx (List.getElem?_set_self hlen)]
  rw [List.set_set, List.set_set, hw t3]

theorem write_tile_self (board : List (List Tile)) (coord : PyCoord) (t : Tile)
    (h : get_tile board coord = .ok (some t)) :
    write_tile board coord t = board := by
  obtain ⟨ri, ci, row, hidx, hrange, hrow, ht, hw⟩ := get_tile_some_inv _ _ _ h
  rw [hw]
  rw [set_of_getElem? row _ _ ht]
  exact set_of_getElem? board _ _ hrow

theorem tile_unreveal_eta (t : Tile) (h : t.revealed = false) :
    { t with revealed := false } = t := by
  cases t
  simp only at h
  rw [h]

end Bingo

namespace Bingo

theorem select_tile_success_inv (s : GState) (u : Int) (cs : String) (now : ℚ) (ts : String)
    (s1 : GState) (tile : Tile)
    (h : select_tile s u cs now ts = (s1, .success tile)) :
    ∃ (team : Team) (r : String) (c : Int) (tile0 : Tile),
      get_user_team s.teams u = some team ∧
      parse_coord cs = some (r, c) ∧
      get_tile team.board (.tup r c) = .ok (some tile0) ∧
      tile0.revealed = false ∧
      tile = { tile0 with revealed := true } ∧
      ((s.cooldowns.filter (fun kv => !(decide (now - kv.2 > COOLDOWN_DURATION)))).any
        (fun kv => kv.1.2 == team.id && decide (now - kv.2 < COOLDOWN_DURATION))) = false ∧
      s1.teams = update_first_user_team s.teams u
          (fun t =>
            { t with
              board := write_tile t.board (.tup r c) ({ tile0 with revealed := true }) }) ∧
      s1.move_log = s.move_log ++
        [({ team_id := team.id, discord_id := u, coord := .tup r c, timestamp := ts } :
          MoveLog)] ∧
      s1.cooldowns = dict_set
        (s.cooldowns.filter (fun kv => !(decide (now - kv.2 > COOLDOWN_DURATION))))
        (u, team.id) now ∧
      s1.file = some ((s.move_log ++
        [({ team_id := team.id, discord_id := u, coord := .tup r c, timestamp := ts } :
          MoveLog)]).map MoveLog.to_dict) := by
  simp only [select_tile] at h
  rcases h1 : get_user_team s.teams u with _ | team
  · simp only [h1] at h
    simp at h
  · simp only [h1] at h
    by_cases h2 : ((s.cooldowns.filter (fun kv =>
        !(decide (now - kv.2 > COOLDOWN_DURATION)))).any
          (fun kv => kv.1.2 == team.id && decide (now - kv.2 < COOLDOWN_DURATION))) = true
    · rw [if_pos h2] at h
      simp at h
    · rw [if_neg h2] at h
      rcases h3 : parse_coord cs with _ | rc
      · simp only [h3] at h
        simp at h
      · rcases rc with ⟨r, c⟩
        simp only [h3] at h
        rcases h4 : get_tile team.board (.tup r c) with e | ot
        · simp only [h4] at h
          simp at h
        · rcases ot with _ | tile0
          · simp only [h4] at h
            simp at h
          · simp only [h4] at h
            by_cases h5 : tile0.revealed = true
            · rw [if_pos h5] at h
              simp at h
            · rw [if_neg h5] at h
              have h_st := congrArg Prod.fst h
              have h_out := congrArg Prod.snd h
              simp only at h_st h_out
              have htile : tile = { tile0 with revealed := true } := by
                injection h_out with h6
                exact h6.symm
              refine ⟨team, r, c, tile0, rfl, rfl, h4, ?_, htile, ?_, ?_, ?_, ?_, ?_⟩
              · cases htb : tile0.revealed
                · rfl
                · exact absurd htb h5
              · cases hany : ((s.cooldowns.filter (fun kv =>
                    !(decide (now - kv.2 > COOLDOWN_DURATION)))).any
                      (fun kv => kv.1.2 == team.id && decide (now - kv.2 < COOLDOWN_DURATION)))
                · rfl
                · exact absurd hany h2
              · rw [← h_st]
                rfl
              · rw [← h_st]
                rfl
              · rw [← h_st]
                rfl
              · rw [← h_st]
                rfl

end Bingo

namespace Bingo

theorem select_tile_fail_frame (s : GState) (u : Int) (cs : String) (now : ℚ) (ts : String)
    (h : ((select_tile s u cs now ts).2).isSuccess = false) :
    (select_tile s u cs now ts).1.teams = s.teams ∧
    (select_tile s u cs now ts).1.move_log = s.move_log ∧
    (select_tile s u cs now ts).1.file = s.file ∧
    ((select_tile s u cs now ts).1.cooldowns = s.cooldowns ∨
      (select_tile s u cs now ts).1.cooldowns =
        s.cooldowns.filter (fun kv => !(decide (now - kv.2 > COOLDOWN_DURATION)))) := by
  simp only [select_tile] at h ⊢
  rcases h1 : get_user_team s.teams u with _ | team
  · simp only [h1]
    simp
  · simp only [h1] at h ⊢
    by_cases h2 : ((s.cooldowns.filter (fun kv =>
        !(decide (now - kv.2 > COOLDOWN_DURATION)))).any
          (fun kv => kv.1.2 == team.id && decide (now - kv.2 < COOLDOWN_DURATION))) = true
    · rw [if_pos h2]
      simp
    · rw [if_neg h2] at h ⊢
      rcases h3 : parse_coord cs with _ | rc
      · simp only [h3]
        simp
      · rcases rc with ⟨r, c⟩
        simp only [h3] at h ⊢
        rcases h4 : get_tile team.board (.tup r c) with e | ot
        · simp only [h4]
          simp
        · rcases ot with _ | tile0
          · simp only [h4]
            simp
          · simp only [h4] at h ⊢
            by_cases h5 : tile0.revealed = true
            · rw [if_pos h5]
              simp
            · rw [if_neg h5] at h
              simp [Outcome.isSuccess] at h

theorem undo_move_undone_inv (s : GState) (team_id : Int) (s1 : GState) (lm : MoveLog)
    (h : undo_move s team_id = (s1, .undone lm)) :
    ∃ (team : Team) (tile : Tile),
      (s.move_log.filter (fun m => m.team_id == team_id)).getLast? = some lm ∧
      s.teams.find? (fun t => t.id == team_id) = some team ∧
      get_tile team.board lm.coord = .ok (some tile) ∧
      s1.teams = update_first_team_by_id s.teams team_id
          (fun t =>
            { t with
              board := write_tile t.board lm.coord ({ tile with revealed := false }) }) ∧
      s1.move_log = s.move_log.erase lm ∧
      s1.cooldowns = s.cooldowns ∧
      s1.file = some ((s.move_log.erase lm).map MoveLog.to_dict) := by
  simp only [undo_move] at h
  rcases h1 : (s.move_log.filter (fun m => m.team_id == team_id)).getLast? with _ | lm0
  · simp only [h1] at h
    simp at h
  · simp only [h1] at h
    rcases h2 : s.teams.find? (fun t => t.id == team_id) with _ | team
    · simp only [h2] at h
      simp at h
    · simp only [h2] at h
      rcases h3 : get_tile team.board lm0.coord with e | ot
      · simp only [h3] at h
        simp at h
      · rcases ot with _ | tile
        · simp only [h3] at h
          simp at h
        · simp only [h3] at h
          have h_st := congrArg Prod.fst h
          have h_out := congrArg Prod.snd h
          simp only at h_st h_out
          have hlm : lm0 = lm := by
            injection h_out with h6
          have h3b : get_tile team.board lm.coord = .ok (some tile) := by
            rw [← hlm]
            exact h3
          refine ⟨team, tile, ?_, h2, h3b, ?_, ?_, ?_, ?_⟩
          · rw [← hlm]
            exact h1
          · rw [← h_st, ← hlm]
            rfl
          · rw [← h_st, ← hlm]
            rfl
          · rw [← h_st]
            rfl
          · rw [← h_st, ← hlm]
            rfl

end Bingo

namespace Bingo

theorem find?_cons_pos {α : Type} (p : α → Bool) (a : α) (l : List α) (h : p a = true) :
    List.find? p (a :: l) = some a :=
  List.find?_cons_of_pos l h

theorem find?_cons_neg {α : Type} (p : α → Bool) (a : α) (l : List α) (h : ¬p a = true) :
    List.find? p (a :: l) = List.find? p l :=
  List.find?_cons_of_neg l h

theorem mem_dict_set (d : List ((Int × Int) × ℚ)) (k : Int × Int) (v : ℚ) :
    (k, v) ∈ dict_set d k v := by
  unfold dict_set
  by_cases h : d.any (fun kv => kv.1 == k)
  · rw [if_pos h]
    obtain ⟨kv0, hm, hk⟩ := List.any_eq_true.mp h
    exact List.mem_map.mpr ⟨kv0, hm, by rw [if_pos hk]⟩
  · rw [if_neg h]
    exact List.mem_append_right _ (List.mem_singleton.mpr rfl)

theorem find_id_update_first_user_team (teams : List Team) (u : Int) (g : Team → Team)
    (team : Team)
    (hgid : ∀ t, (g t).id = t.id)
    (hnodup : (teams.map Team.id).Nodup)
    (hu : get_user_team teams u = some team) :
    (update_first_user_team teams u g).find? (fun t => t.id == team.id) = some (g team) := by
  induction teams with
  | nil => simp [get_user_team] at hu
  | cons t rest ih =>
    rw [List.map_cons, List.nodup_cons] at hnodup
    unfold get_user_team at hu
    by_cases hmem : t.members.any (fun m => m.discord_id == u) = true
    · rw [find?_cons_pos (fun x => x.members.any (fun m => m.discord_id == u)) t rest hmem] at hu
      have ht : t = team := by injection hu
      subst ht
      unfold update_first_user_team
      rw [if_pos hmem]
      apply List.find?_cons_of_pos
      rw [hgid t]
      exact beq_self_eq_true t.id
    · rw [find?_cons_neg (fun x => x.members.any (fun m => m.discord_id == u)) t rest hmem] at hu
      have hteam_mem : team ∈ rest := List.mem_of_find?_eq_some hu
      have hne : ¬(t.id == team.id) = true := by
        intro hbeq
        exact hnodup.1 (by
          rw [beq_iff_eq] at hbeq
          rw [hbeq]
          exact List.mem_map.mpr ⟨team, hteam_mem, rfl⟩)
      unfold update_first_user_team
      rw [if_neg hmem]
      rw [find?_cons_neg (fun x => x.id == team.id) t (update_first_user_team rest u g) hne]
      exact ih hnodup.2 hu

theorem get_user_team_update_of_nodup (teams : List Team) (u2 u : Int) (g : Team → Team)
    (team : Team)
    (hgmem : ∀ t, (g t).members = t.members)
    (hnodup : (teams.map Team.id).Nodup)
    (hu : get_user_team teams u = some team)
    (hu2 : get_user_team teams u2 = some team) :
    get_user_team (update_first_user_team teams u g) u2 = some (g team) := by
  induction teams with
  | nil => simp [get_user_team] at hu
  | cons t rest ih =>
    rw [List.map_cons, List.nodup_cons] at hnodup
    unfold get_user_team at hu hu2
    by_cases hmem : t.members.any (fun m => m.discord_id == u) = true
    · rw [find?_cons_pos (fun x => x.members.any (fun m => m.discord_id == u)) t rest hmem] at hu
      have ht : t = team := by injection hu
      subst ht
      unfold update_first_user_team
      rw [if_pos hmem]
      by_cases hmem2 : t.members.any (fun m => m.discord_id == u2) = true
      · unfold get_user_team
        apply List.find?_cons_of_pos
        rw [hgmem t]
        exact hmem2
      · rw [find?_cons_neg (fun x => x.members.any (fun m => m.discord_id == u2)) t rest hmem2] at hu2
        have : t ∈ rest := List.mem_of_find?_eq_some hu2
        exact absurd (List.mem_map.mpr ⟨t, this, rfl⟩) hnodup.1
    · rw [find?_cons_neg (fun x => x.members.any (fun m => m.discord_id == u)) t rest hmem] at hu
      have hteam_mem : team ∈ rest := List.mem_of_find?_eq_some hu
      unfold update_first_user_team
      rw [if_neg hmem]
      by_cases hmem2 : t.members.any (fun m => m.discord_id == u2) = true
      · rw [find?_cons_pos (fun x => x.members.any (fun m => m.discord_id == u2)) t rest hmem2] at hu2
        have ht : t = team := by injection hu2
        subst ht
        exact absurd (List.mem_map.mpr ⟨t, hteam_mem, rfl⟩) hnodup.1
      · rw [find?_cons_neg (fun x => x.members.any (fun m => m.discord_id == u2)) t rest hmem2] at hu2
        unfold get_user_team
        rw [find?_cons_neg (fun x => x.members.any (fun m => m.discord_id == u2)) t
          (update_first_user_team rest u g) hmem2]
        exact ih hnodup.2 hu hu2

theorem update_by_id_after_update_by_user (teams : List Team) (u : Int) (g f : Team → Team)
    (team : Team)
    (hgid : ∀ t, (g t).id = t.id)
    (hnodup : (teams.map Team.id).Nodup)
    (hu : get_user_team teams u = some team)
    (hfg : f (g team) = team) :
    update_first_team_by_id (update_first_user_team teams u g) team.id f = teams := by
  induction teams with
  | nil => simp [get_user_team] at hu
  | cons t rest ih =>
    rw [List.map_cons, List.nodup_cons] at hnodup
    unfold get_user_team at hu
    by_cases hmem : t.members.any (fun m => m.discord_id == u) = true
    · rw [find?_cons_pos (fun x => x.members.any (fun m => m.discord_id == u)) t rest hmem] at hu
      have ht : t = team := by injection hu
      subst ht
      unfold update_first_user_team
      rw [if_pos hmem]
      unfold update_first_team_by_id
      rw [if_pos (by rw [hgid t]; exact beq_self_eq_true t.id)]
      rw [hfg]
    · rw [find?_cons_neg (fun x => x.members.any (fun m => m.discord_id == u)) t rest hmem] at hu
      have hteam_mem : team ∈ rest := List.mem_of_find?_eq_some hu
      have hne : ¬(t.id == team.id) = true := by
        intro hbeq
        exact hnodup.1 (by
          rw [beq_iff_eq] at hbeq
          rw [hbeq]
          exact List.mem_map.mpr ⟨team, hteam_mem, rfl⟩)
      unfold update_first_user_team
      rw [if_neg hmem]
      unfold update_first_team_by_id
      rw [if_neg hne]
      rw [ih hnodup.2 hu]

end Bingo

namespace Bingo

theorem find_id_update_first_team_by_id (teams : List Team) (tid : Int) (f : Team → Team)
    (team : Team)
    (hf : teams.find? (fun t => t.id == tid) = some team)
    (hid : (f team).id = team.id) :
    (update_first_team_by_id teams tid f).find? (fun t => t.id == tid) = some (f team) := by
  induction teams with
  | nil => simp at hf
  | cons t rest ih =>
    by_cases h : (t.id == tid) = true
    · rw [find?_cons_pos (fun x => x.id == tid) t rest h] at hf
      have ht : t = team := by injection hf
      subst ht
      unfold update_first_team_by_id
      rw [if_pos h]
      apply find?_cons_pos
      rw [hid]
      exact h
    · rw [find?_cons_neg (fun x => x.id == tid) t rest h] at hf
      unfold update_first_team_by_id
      rw [if_neg h]
      rw [find?_cons_neg (fun x => x.id == tid) t (update_first_team_by_id rest tid f) h]
      exact ih hf

/-- C5, counterexample: with duplicate equal entries for a team separated by a
different entry, `undo_move` does not remove the most recent entry for the
team.  The log is `[E, F, E]` (entries of team 1); the most recent entry for
team 1 is the final `E`, whose removal would leave `[E, F]`, but `list.remove`
deletes the first occurrence equal to it, leaving `[F, E]`. -/
theorem C5_undo_counterexample :
    ((undo_move
      { teams := [{ id := 1, members := [], board := create_board_template_from_json [] }]
        move_log :=
          [{ team_id := 1, discord_id := 10, coord := .lst "A" 1, timestamp := "T" },
           { team_id := 1, discord_id := 10, coord := .lst "B" 2, timestamp := "U" },
           { team_id := 1, discord_id := 10, coord := .lst "A" 1, timestamp := "T" }]
        cooldowns := []
        file := none } 1).2 =
      .undone { team_id := 1, discord_id := 10, coord := .lst "A" 1, timestamp := "T" }) ∧
    (undo_move
      { teams := [{ id := 1, members := [], board := create_board_template_from_json [] }]
        move_log :=
          [{ team_id := 1, discord_id := 10, coord := .lst "A" 1, timestamp := "T" },
           { team_id := 1, discord_id := 10, coord := .lst "B" 2, timestamp := "U" },
           { team_id := 1, discord_id := 10, coord := .lst "A" 1, timestamp := "T" }]
        cooldowns := []
        file := none } 1).1.move_log =
      [{ team_id := 1, discord_id := 10, coord := .lst "B" 2, timestamp := "U" },
       { team_id := 1, discord_id := 10, coord := .lst "A" 1, timestamp := "T" }] ∧
    ([{ team_id := 1, discord_id := 10, coord := .lst "B" 2, timestamp := "U" },
      { team_id := 1, discord_id := 10, coord := .lst "A" 1, timestamp := "T" }] :
        List MoveLog) ≠
      [{ team_id := 1, discord_id := 10, coord := .lst "A" 1, timestamp := "T" },
       { team_id := 1, discord_id := 10, coord := .lst "B" 2, timestamp := "U" }] := by
  refine ⟨by decide, by decide, by decide⟩

/-- C5 (amended): for a team with at least one entry, `undo_move` identifies
the most recent entry for the team in log order, removes exactly one instance:
the first entry in the whole log equal to it (which is the most recent
occurrence whenever no equal duplicate precedes it), sets that entry's tile to
unrevealed, and persists the resulting log. -/
theorem C5_undo_removes_first_equal (s : GState) (team_id : Int) (lm : MoveLog)
    (team : Team) (tile : Tile)
    (h1 : (s.move_log.filter (fun m => m.team_id == team_id)).getLast? = some lm)
    (h2 : s.teams.find? (fun t => t.id == team_id) = some team)
    (h3 : get_tile team.board lm.coord = .ok (some tile)) :
    (undo_move s team_id).2 = .undone lm ∧
    (undo_move s team_id).1.move_log = s.move_log.erase lm ∧
    (undo_move s team_id).1.move_log.length + 1 = s.move_log.length ∧
    (undo_move s team_id).1.file =
      some (((undo_move s team_id).1.move_log).map MoveLog.to_dict) ∧
    ∃ team1, ((undo_move s team_id).1.teams).find? (fun t => t.id == team_id) = some team1 ∧
      get_tile team1.board lm.coord = .ok (some ({ tile with revealed := false })) := by
  have hmem : lm ∈ s.move_log := by
    obtain ⟨ys, hys⟩ := List.getLast?_eq_some_iff.mp h1
    have : lm ∈ s.move_log.filter (fun m => m.team_id == team_id) := by
      rw [hys]
      exact List.mem_append_right _ (List.mem_singleton.mpr rfl)
    exact (List.mem_filter.mp this).1
  have hu : undo_move s team_id =
      ({ teams := update_first_team_by_id s.teams team_id
            (fun t =>
              { t with
                board := write_tile t.board lm.coord ({ tile with revealed := false }) })
         move_log := s.move_log.erase lm
         cooldowns := s.cooldowns
         file := some ((s.move_log.erase lm).map MoveLog.to_dict) }, .undone lm) := by
    simp only [undo_move, h1, h2, h3, save_move_log]
  rw [hu]
  refine ⟨rfl, rfl, ?_, rfl, ?_⟩
  · simp only []
    rw [List.length_erase_of_mem hmem]
    have : 1 ≤ s.move_log.length := List.length_pos_of_mem hmem
    omega
  · refine ⟨{ team with
        board := write_tile team.board lm.coord ({ tile with revealed := false }) }, ?_, ?_⟩
    · exact find_id_update_first_team_by_id s.teams team_id _ team h2 rfl
    · exact get_tile_write_tile team.board lm.coord tile _ h3

/-- Witness for C5 (amended) at a single-entry log. -/
theorem C5_undo_witness :
    (undo_move
      { teams := [{ id := 1, members := [], board := create_board_template_from_json [] }]
        move_log := [{ team_id := 1, discord_id := 10, coord := .lst "A" 1, timestamp := "T" }]
        cooldowns := []
        file := none } 1).2 =
      .undone { team_id := 1, discord_id := 10, coord := .lst "A" 1, timestamp := "T" } :=
  (C5_undo_removes_first_equal _ 1
    { team_id := 1, discord_id := 10, coord := .lst "A" 1, timestamp := "T" }
    { id := 1, members := [], board := create_board_template_from_json [] }
    (board_cell [] 0 0)
    (by decide) (by decide) (by rfl)).1

end Bingo

namespace Bingo

/-- C8, counterexample: a reveal attempt denied by the cooldown gate does
mutate state: the expired-entry garbage collection that runs before the gate
deletes the stale entry of user 9 on team 2 even though the attempt fails with
the cooldown denial, so the cooldown mapping changes on a failed attempt. -/
theorem C8_frame_counterexample :
    ((select_tile
      { teams := [{ id := 1, members := [{ rsn := "a", discord_id := 5 }], board := [] }]
        move_log := []
        cooldowns := [((9, 2), 0), ((5, 1), 1900)]
        file := none } 5 "A,1" 2000 "ts").2 = .onCooldown) ∧
    (select_tile
      { teams := [{ id := 1, members := [{ rsn := "a", discord_id := 5 }], board := [] }]
        move_log := []
        cooldowns := [((9, 2), 0), ((5, 1), 1900)]
        file := none } 5 "A,1" 2000 "ts").1.cooldowns ≠ [((9, 2), 0), ((5, 1), 1900)] := by
  constructor
  · norm_num [select_tile, get_user_team, COOLDOWN_DURATION, List.find?, List.filter, List.any]
  · norm_num [select_tile, get_user_team, COOLDOWN_DURATION, List.find?, List.filter, List.any]

/-- C8 (amended): on every reveal attempt that does not succeed (not on a team,
on cooldown, invalid format, invalid coordinate or tile not found, already
revealed, or the uncaught exception case) the teams (hence all tiles), the move
log and the persisted file are unchanged, no cooldown timestamp is added or
refreshed (the resulting cooldown entries are a subset of the previous ones),
and every entry not older than the window survives — only entries older than
the window may be garbage-collected by the cleanup that runs before the gate. -/
theorem C8_failed_attempt_frame (s : GState) (u : Int) (cs : String) (now : ℚ) (ts : String)
    (h : ((select_tile s u cs now ts).2).isSuccess = false) :
    (select_tile s u cs now ts).1.teams = s.teams ∧
    (select_tile s u cs now ts).1.move_log = s.move_log ∧
    (select_tile s u cs now ts).1.file = s.file ∧
    (∀ kv ∈ (select_tile s u cs now ts).1.cooldowns, kv ∈ s.cooldowns) ∧
    (∀ kv ∈ s.cooldowns, ¬(now - kv.2 > COOLDOWN_DURATION) →
      kv ∈ (select_tile s u cs now ts).1.cooldowns) := by
  obtain ⟨ht, hm, hf, hc⟩ := select_tile_fail_frame s u cs now ts h
  refine ⟨ht, hm, hf, ?_, ?_⟩
  · intro kv hkv
    rcases hc with hc | hc
    · rw [hc] at hkv
      exact hkv
    · rw [hc] at hkv
      exact (List.mem_filter.mp hkv).1
  · intro kv hkv hnot
    rcases hc with hc | hc
    · rw [hc]
      exact hkv
    · rw [hc]
      refine List.mem_filter.mpr ⟨hkv, ?_⟩
      simp only [Bool.not_eq_true']
      exact decide_eq_false hnot

/-- Witness for C8 at the cooldown-denied attempt: the move log stays empty and
the unexpired entry of user 5 on team 1 survives. -/
theorem C8_frame_witness :
    ((select_tile
      { teams := [{ id := 1, members := [{ rsn := "a", discord_id := 5 }], board := [] }]
        move_log := []
        cooldowns := [((9, 2), 0), ((5, 1), 1900)]
        file := none } 5 "A,1" 2000 "ts").1.move_log = []) ∧
    (((5, 1), (1900 : ℚ)) ∈ (select_tile
      { teams := [{ id := 1, members := [{ rsn := "a", discord_id := 5 }], board := [] }]
        move_log := []
        cooldowns := [((9, 2), 0), ((5, 1), 1900)]
        file := none } 5 "A,1" 2000 "ts").1.cooldowns) := by
  have h := C8_failed_attempt_frame
    { teams := [{ id := 1, members := [{ rsn := "a", discord_id := 5 }], board := [] }]
      move_log := []
      cooldowns := [((9, 2), 0), ((5, 1), 1900)]
      file := none } 5 "A,1" 2000 "ts"
      (by
        norm_num [select_tile, get_user_team, COOLDOWN_DURATION, List.find?, List.filter,
          List.any]
        rfl)
  refine ⟨h.2.1, ?_⟩
  refine h.2.2.2.2 ((5, 1), (1900 : ℚ)) (by norm_num) (by norm_num [COOLDOWN_DURATION])

end Bingo

namespace Bingo

/-- C3: after a reveal by a team member succeeds at time `now`, any reveal
attempt by any member resolving to the same team at a time strictly inside the
20-minute window is denied with the cooldown outcome; and on any state whose
cooldown entries are all at least a window old (in particular after the window
has elapsed since the only success), no attempt is blocked by the cooldown
gate. -/
theorem C3_cooldown_monotonicity (s : GState) (u u2 : Int) (cs cs2 : String)
    (now now2 : ℚ) (ts ts2 : String) (s1 : GState) (tile : Tile) (team team2 : Team)
    (hteam : get_user_team s.teams u = some team)
    (hrun : select_tile s u cs now ts = (s1, .success tile))
    (hteam2 : get_user_team s1.teams u2 = some team2)
    (hid : team2.id = team.id)
    (hwin : now2 - now < COOLDOWN_DURATION) :
    (select_tile s1 u2 cs2 now2 ts2).2 = .onCooldown ∧
    (∀ (s3 : GState) (u3 : Int) (cs3 : String) (now3 : ℚ) (ts3 : String),
      (∀ kv ∈ s3.cooldowns, COOLDOWN_DURATION ≤ now3 - kv.2) →
      (select_tile s3 u3 cs3 now3 ts3).2 ≠ .onCooldown) := by
  constructor
  · obtain ⟨team0, r, c, tile0, hteam0, hparse, hget, hrev, htile, hany, hteams, hlog,
      hcds, hfile⟩ := select_tile_success_inv s u cs now ts s1 tile hrun
    have hteam_eq : team0 = team := by
      rw [hteam0] at hteam
      injection hteam
    rw [hteam_eq] at hcds
    have hmem : ((u, team.id), now) ∈ s1.cooldowns := by
      rw [hcds]
      exact mem_dict_set _ _ _
    simp only [select_tile, hteam2]
    rw [if_pos]
    apply List.any_eq_true.mpr
    refine ⟨((u, team.id), now), ?_, ?_⟩
    · refine List.mem_filter.mpr ⟨hmem, ?_⟩
      simp only [Bool.not_eq_true']
      apply decide_eq_false
      intro hgt
      exact absurd (lt_trans hwin hgt) (lt_irrefl _)
    · simp only [hid]
      rw [Bool.and_eq_true]
      refine ⟨beq_self_eq_true team.id, ?_⟩
      exact decide_eq_true hwin
  · intro s3 u3 cs3 now3 ts3 hall
    simp only [select_tile]
    rcases h1 : get_user_team s3.teams u3 with _ | team3
    · simp
    · simp only [h1]
      have hany : ((s3.cooldowns.filter (fun kv =>
          !(decide (now3 - kv.2 > COOLDOWN_DURATION)))).any
            (fun kv => kv.1.2 == team3.id && decide (now3 - kv.2 < COOLDOWN_DURATION))) =
          false := by
        apply List.any_eq_false.mpr
        intro kv hkv
        have hmem3 := (List.mem_filter.mp hkv).1
        have hge := hall kv hmem3
        rw [Bool.and_eq_true]
        intro ⟨hkv1, hkv2⟩
        rw [decide_eq_true_eq] at hkv2
        exact absurd (lt_of_le_of_lt hge hkv2) (lt_irrefl _)
      rw [if_neg (by rw [hany]; exact Bool.false_ne_true)]
      rcases h3 : parse_coord cs3 with _ | rc
      · simp only [h3]
        simp
      · rcases rc with ⟨r3, c3⟩
        simp only [h3]
        rcases h4 : get_tile team3.board (.tup r3 c3) with e | ot
        · simp only [h4]
          simp
        · rcases ot with _ | tile3
          · simp only [h4]
            simp
          · simp only [h4]
            by_cases h5 : tile3.revealed = true
            · rw [if_pos h5]
              simp
            · rw [if_neg h5]
              simp

end Bingo

namespace Bingo

/-- Witness for C3: after team 1 member 5 reveals at time 0, member 6 of the
same team is blocked at time 100, and at time 1300 (window elapsed) the gate no
longer blocks. -/
theorem C3_cooldown_witness :
    (select_tile ((select_tile
      { teams := [{ id := 1
                    members := [{ rsn := "a", discord_id := 5 }, { rsn := "b", discord_id := 6 }]
                    board := create_board_template_from_json [] }]
        move_log := [], cooldowns := [], file := none } 5 "A,1" 0 "t1").1)
      6 "B,2" 100 "t2").2 = .onCooldown ∧
    (select_tile ((select_tile
      { teams := [{ id := 1
                    members := [{ rsn := "a", discord_id := 5 }, { rsn := "b", discord_id := 6 }]
                    board := create_board_template_from_json [] }]
        move_log := [], cooldowns := [], file := none } 5 "A,1" 0 "t1").1)
      5 "B,2" 1300 "t3").2 ≠ .onCooldown := by
  have h := C3_cooldown_monotonicity
    { teams := [{ id := 1
                  members := [{ rsn := "a", discord_id := 5 }, { rsn := "b", discord_id := 6 }]
                  board := create_board_template_from_json [] }]
      move_log := [], cooldowns := [], file := none }
    5 6 "A,1" "B,2" 0 100 "t1" "t2"
    ((select_tile
      { teams := [{ id := 1
                    members := [{ rsn := "a", discord_id := 5 }, { rsn := "b", discord_id := 6 }]
                    board := create_board_template_from_json [] }]
        move_log := [], cooldowns := [], file := none } 5 "A,1" 0 "t1").1)
    ({ board_cell [] 0 0 with revealed := true })
    { id := 1
      members := [{ rsn := "a", discord_id := 5 }, { rsn := "b", discord_id := 6 }]
      board := create_board_template_from_json [] }
    { id := 1
      members := [{ rsn := "a", discord_id := 5 }, { rsn := "b", discord_id := 6 }]
      board := write_tile (create_board_template_from_json []) (.tup "A" 1)
        ({ board_cell [] 0 0 with revealed := true }) }
    (by decide) (by rfl) (by decide) (by rfl)
    (by norm_num [COOLDOWN_DURATION])
  refine ⟨h.1, h.2 _ 5 "B,2" 1300 "t3" ?_⟩
  intro kv hkv
  have hc : ((select_tile
      { teams := [{ id := 1
                    members := [{ rsn := "a", discord_id := 5 }, { rsn := "b", discord_id := 6 }]
                    board := create_board_template_from_json [] }]
        move_log := [], cooldowns := [], file := none } 5 "A,1" 0 "t1").1).cooldowns =
      [((5, 1), (0 : ℚ))] := by rfl
  rw [hc] at hkv
  rcases List.mem_singleton.mp hkv with rfl
  norm_num [COOLDOWN_DURATION]

end Bingo

namespace Bingo

/-- C4: after a successful reveal of a coordinate by a team, a second reveal of
the same coordinate by a member resolving to the same team — with the cooldown
disregarded via the admin reset and no other entry expiring — fails with the
already-revealed outcome, changes nothing in the state, and leaves the move log
length unchanged. -/
theorem C4_reveal_idempotent (s : GState) (u u2 : Int) (cs : String) (now now2 : ℚ)
    (ts ts2 : String) (s1 : GState) (tile : Tile) (team : Team)
    (hnodup : (s.teams.map Team.id).Nodup)
    (hteam : get_user_team s.teams u = some team)
    (hrun : select_tile s u cs now ts = (s1, .success tile))
    (hsame : get_user_team s.teams u2 = some team)
    (hgc : ∀ kv ∈ (reset_cooldown s1 team.id).cooldowns, ¬(now2 - kv.2 > COOLDOWN_DURATION)) :
    select_tile (reset_cooldown s1 team.id) u2 cs now2 ts2 =
      (reset_cooldown s1 team.id, .alreadyRevealed) ∧
    (select_tile (reset_cooldown s1 team.id) u2 cs now2 ts2).1.move_log.length =
      s1.move_log.length := by
  obtain ⟨team0, r, c, tile0, hteam0, hparse, hget, hrev, htile, hany, hteams, hlog,
    hcds, hfile⟩ := select_tile_success_inv s u cs now ts s1 tile hrun
  have hteam_eq : team0 = team := by
    rw [hteam0] at hteam
    injection hteam
  rw [hteam_eq] at hget
  have hu2 : get_user_team (reset_cooldown s1 team.id).teams u2 =
      some { team with
        board := write_tile team.board (.tup r c) ({ tile0 with revealed := true }) } := by
    show get_user_team s1.teams u2 = _
    rw [hteams]
    exact get_user_team_update_of_nodup s.teams u2 u _ team (fun t => rfl) hnodup hteam hsame
  have hfeq : (reset_cooldown s1 team.id).cooldowns.filter
      (fun kv => !(decide (now2 - kv.2 > COOLDOWN_DURATION))) =
      (reset_cooldown s1 team.id).cooldowns := by
    apply List.filter_eq_self.mpr
    intro kv hkv
    simp only [Bool.not_eq_true']
    exact decide_eq_false (hgc kv hkv)
  have hanyf : ((reset_cooldown s1 team.id).cooldowns).any
        (fun kv => kv.1.2 == team.id &&
          decide (now2 - kv.2 < COOLDOWN_DURATION)) = false := by
    apply List.any_eq_false.mpr
    intro kv hkv
    have hne := (List.mem_filter.mp hkv).2
    rw [Bool.and_eq_true]
    intro ⟨hkv1, hkv2⟩
    rw [hkv1] at hne
    simp at hne
  have hget2 : get_tile ({ team with
      board := write_tile team.board (.tup r c) ({ tile0 with revealed := true }) } :
        Team).board (.tup r c) = .ok (some ({ tile0 with revealed := true })) :=
    get_tile_write_tile team.board (.tup r c) tile0 _ hget
  have hidp : ({ team with
      board := write_tile team.board (.tup r c) ({ tile0 with revealed := true }) } :
        Team).id = team.id := rfl
  have hmain : select_tile (reset_cooldown s1 team.id) u2 cs now2 ts2 =
      (reset_cooldown s1 team.id, .alreadyRevealed) := by
    simp only [select_tile, hu2, hparse, hget2, hidp, hfeq]
    rw [if_neg (by rw [hanyf]; exact Bool.false_ne_true)]
    rw [if_pos trivial]
  refine ⟨hmain, ?_⟩
  rw [hmain]
  rfl

/-- Witness for C4: member 5 of team 1 reveals tile `A,1` at time 0, the admin
resets the team cooldown, and the repeat attempt by member 6 fails with the
already-revealed outcome and no state change. -/
theorem C4_reveal_idempotent_witness :
    select_tile (reset_cooldown ((select_tile
      { teams := [{ id := 1
                    members := [{ rsn := "a", discord_id := 5 }, { rsn := "b", discord_id := 6 }]
                    board := create_board_template_from_json [] }]
        move_log := [], cooldowns := [], file := none } 5 "A,1" 0 "t1").1) 1)
      6 "A,1" 50 "t2" =
      (reset_cooldown ((select_tile
        { teams := [{ id := 1
                      members := [{ rsn := "a", discord_id := 5 }, { rsn := "b", discord_id := 6 }]
                      board := create_board_template_from_json [] }]
          move_log := [], cooldowns := [], file := none } 5 "A,1" 0 "t1").1) 1,
       .alreadyRevealed) := by
  have h := C4_reveal_idempotent
    { teams := [{ id := 1
                  members := [{ rsn := "a", discord_id := 5 }, { rsn := "b", discord_id := 6 }]
                  board := create_board_template_from_json [] }]
      move_log := [], cooldowns := [], file := none }
    5 6 "A,1" 0 50 "t1" "t2"
    ((select_tile
      { teams := [{ id := 1
                    members := [{ rsn := "a", discord_id := 5 }, { rsn := "b", discord_id := 6 }]
                    board := create_board_template_from_json [] }]
        move_log := [], cooldowns := [], file := none } 5 "A,1" 0 "t1").1)
    ({ board_cell [] 0 0 with revealed := true })
    { id := 1
      members := [{ rsn := "a", discord_id := 5 }, { rsn := "b", discord_id := 6 }]
      board := create_board_template_from_json [] }
    (by decide) (by decide) (by rfl) (by decide)
    (by
      intro kv hkv
      rw [show (reset_cooldown ((select_tile
        { teams := [{ id := 1
                      members := [{ rsn := "a", discord_id := 5 },
                                  { rsn := "b", discord_id := 6 }]
                      board := create_board_template_from_json [] }]
          move_log := [], cooldowns := [], file := none } 5 "A,1" 0 "t1").1) 1).cooldowns =
        [] from rfl] at hkv
      exact absurd hkv (List.not_mem_nil kv))
  exact h.1

end Bingo

namespace Bingo

/-- C6: a successful reveal immediately followed by undo for the same team
undoes the revealed entry, returns every board — in particular the revealed
tile — to its prior state, and restores the move log to its prior length and
content.  The freshness hypothesis states that the appended timestamp does not
already occur in the log, which holds for the microsecond UTC timestamps the
source generates at append time. -/
theorem C6_reveal_undo_inverse (s : GState) (u : Int) (cs : String) (now : ℚ) (ts : String)
    (s1 : GState) (tile : Tile) (team : Team)
    (hnodup : (s.teams.map Team.id).Nodup)
    (hteam : get_user_team s.teams u = some team)
    (hfresh : ∀ m ∈ s.move_log, m.timestamp ≠ ts)
    (hrun : select_tile s u cs now ts = (s1, .success tile)) :
    (undo_move s1 team.id).2.isUndone = true ∧
    (undo_move s1 team.id).1.teams = s.teams ∧
    (undo_move s1 team.id).1.move_log = s.move_log := by
  obtain ⟨team0, r, c, tile0, hteam0, hparse, hget, hrev, htile, hany, hteams, hlog,
    hcds, hfile⟩ := select_tile_success_inv s u cs now ts s1 tile hrun
  have hteam_eq : team0 = team := by
    rw [hteam0] at hteam
    injection hteam
  rw [hteam_eq] at hget hlog
  have hentry_fresh :
      ({ team_id := team.id, discord_id := u, coord := .tup r c, timestamp := ts } :
        MoveLog) ∉ s.move_log := by
    intro hmem
    exact hfresh _ hmem rfl
  have h1 : (s1.move_log.filter (fun m => m.team_id == team.id)).getLast? =
      some { team_id := team.id, discord_id := u, coord := .tup r c, timestamp := ts } := by
    rw [hlog, List.filter_append]
    have : List.filter (fun m => m.team_id == team.id)
        [({ team_id := team.id, discord_id := u, coord := .tup r c, timestamp := ts } :
          MoveLog)] =
        [{ team_id := team.id, discord_id := u, coord := .tup r c, timestamp := ts }] := by
      simp
    rw [this]
    exact List.getLast?_concat _
  have h2 : s1.teams.find? (fun t => t.id == team.id) =
      some { team with
        board := write_tile team.board (.tup r c) ({ tile0 with revealed := true }) } := by
    rw [hteams]
    exact find_id_update_first_user_team s.teams u _ team (fun t => rfl) hnodup hteam
  have h3 : get_tile ({ team with
      board := write_tile team.board (.tup r c) ({ tile0 with revealed := true }) } :
        Team).board (.tup r c) = .ok (some ({ tile0 with revealed := true })) :=
    get_tile_write_tile team.board (.tup r c) tile0 _ hget
  have hu : undo_move s1 team.id =
      ({ teams := update_first_team_by_id s1.teams team.id
            (fun t =>
              { t with
                board := write_tile t.board (.tup r c) ({ tile0 with revealed := false }) })
         move_log := s1.move_log.erase
           { team_id := team.id, discord_id := u, coord := .tup r c, timestamp := ts }
         cooldowns := s1.cooldowns
         file := some ((s1.move_log.erase
           { team_id := team.id, discord_id := u, coord := .tup r c,
             timestamp := ts }).map MoveLog.to_dict) },
       .undone { team_id := team.id, discord_id := u, coord := .tup r c, timestamp := ts }) := by
    simp only [undo_move, h1, h2, h3, save_move_log]
  have hlog_restore : s1.move_log.erase
      { team_id := team.id, discord_id := u, coord := .tup r c, timestamp := ts } =
      s.move_log := by
    rw [hlog, List.erase_append_right _ hentry_fresh]
    simp
  have hteams_restore : update_first_team_by_id s1.teams team.id
      (fun t =>
        { t with
          board := write_tile t.board (.tup r c) ({ tile0 with revealed := false }) }) =
      s.teams := by
    rw [hteams]
    apply update_by_id_after_update_by_user s.teams u
      (fun t =>
        { t with board := write_tile t.board (.tup r c) ({ tile0 with revealed := true }) })
      (fun t =>
        { t with board := write_tile t.board (.tup r c) ({ tile0 with revealed := false }) })
      team (fun t => rfl) hnodup hteam
    show ({ team with
        board := write_tile
          (write_tile team.board (.tup r c) ({ tile0 with revealed := true }))
          (.tup r c) ({ tile0 with revealed := false }) } : Team) = team
    rw [write_tile_write_tile team.board (.tup r c) tile0 _ _ hget]
    rw [tile_unreveal_eta tile0 hrev]
    rw [write_tile_self team.board (.tup r c) tile0 hget]
  rw [hu]
  exact ⟨rfl, hteams_restore, hlog_restore⟩

/-- Witness for C6: reveal of `A,1` by member 5 of team 1 followed by undo for
team 1 restores the startup teams and the empty move log. -/
theorem C6_reveal_undo_witness :
    ((undo_move ((select_tile
      { teams := [{ id := 1
                    members := [{ rsn := "a", discord_id := 5 }, { rsn := "b", discord_id := 6 }]
                    board := create_board_template_from_json [] }]
        move_log := [], cooldowns := [], file := none } 5 "A,1" 0 "t1").1) 1).1.teams =
      [{ id := 1
         members := [{ rsn := "a", discord_id := 5 }, { rsn := "b", discord_id := 6 }]
         board := create_board_template_from_json [] }]) ∧
    ((undo_move ((select_tile
      { teams := [{ id := 1
                    members := [{ rsn := "a", discord_id := 5 }, { rsn := "b", discord_id := 6 }]
                    board := create_board_template_from_json [] }]
        move_log := [], cooldowns := [], file := none } 5 "A,1" 0 "t1").1) 1).1.move_log =
      []) := by
  have h := C6_reveal_undo_inverse
    { teams := [{ id := 1
                  members := [{ rsn := "a", discord_id := 5 }, { rsn := "b", discord_id := 6 }]
                  board := create_board_template_from_json [] }]
      move_log := [], cooldowns := [], file := none }
    5 "A,1" 0 "t1"
    ((select_tile
      { teams := [{ id := 1
                    members := [{ rsn := "a", discord_id := 5 }, { rsn := "b", discord_id := 6 }]
                    board := create_board_template_from_json [] }]
        move_log := [], cooldowns := [], file := none } 5 "A,1" 0 "t1").1)
    ({ board_cell [] 0 0 with revealed := true })
    { id := 1
      members := [{ rsn := "a", discord_id := 5 }, { rsn := "b", discord_id := 6 }]
      board := create_board_template_from_json [] }
    (by decide) (by decide)
    (by intro m hm; exact absurd hm (List.not_mem_nil m))
    (by rfl)
  exact ⟨h.2.1, h.2.2⟩

end Bingo

namespace Bingo

theorem pyUpper_idem (s : String) : pyUpper (pyUpper s) = pyUpper s := by
  unfold pyUpper
  congr 1
  rw [List.map_map]
  apply List.map_congr_left
  intro a ha
  exact char_toUpper_toUpper a

theorem string_eta (s : String) : String.mk s.data = s := rfl

theorem letterOfRow_toNat (i : Nat) (hi : i < 7) :
    ∃ ch : Char, letterOfRow i = String.mk [ch] ∧ ch.toNat = 65 + i := by
  refine ⟨Char.ofNat (65 + i), rfl, char_toNat_ofNat _ (by omega)⟩

theorem letterOfRow_inj (i j : Nat) (hi : i < 7) (hj : j < 7)
    (h : letterOfRow i = letterOfRow j) : i = j := by
  obtain ⟨ci, hci, hcin⟩ := letterOfRow_toNat i hi
  obtain ⟨cj, hcj, hcjn⟩ := letterOfRow_toNat j hj
  rw [hci, hcj] at h
  have hcc : ci = cj := by
    have := congrArg String.data h
    simpa using this
  rw [hcc] at hcin
  omega

theorem coordIn_append (l1 l2 : List MoveLog) (tid : Int) (r : String) (c : Int) :
    coordIn (l1 ++ l2) tid r c = (coordIn l1 tid r c || coordIn l2 tid r c) := by
  unfold coordIn
  exact List.any_append

theorem map_id_update_first_user_team (teams : List Team) (u : Int) (g : Team → Team)
    (hgid : ∀ t, (g t).id = t.id) :
    (update_first_user_team teams u g).map Team.id = teams.map Team.id := by
  induction teams with
  | nil => rfl
  | cons t rest ih =>
    unfold update_first_user_team
    by_cases hmem : t.members.any (fun m => m.discord_id == u) = true
    · rw [if_pos hmem]
      simp only [List.map_cons, hgid t]
    · rw [if_neg hmem]
      simp only [List.map_cons, ih]

theorem map_id_update_first_team_by_id (teams : List Team) (tid : Int) (f : Team → Team)
    (hfid : ∀ t, (f t).id = t.id) :
    (update_first_team_by_id teams tid f).map Team.id = teams.map Team.id := by
  induction teams with
  | nil => rfl
  | cons t rest ih =>
    unfold update_first_team_by_id
    by_cases h : (t.id == tid) = true
    · rw [if_pos h]
      simp only [List.map_cons, hfid t]
    · rw [if_neg h]
      simp only [List.map_cons, ih]

theorem mem_update_first_user_team (teams : List Team) (u : Int) (g : Team → Team) :
    ∀ t1 ∈ update_first_user_team teams u g, t1 ∈ teams ∨
      ∃ t, get_user_team teams u = some t ∧ t ∈ teams ∧ t1 = g t := by
  induction teams with
  | nil => intro t1 h; exact absurd h (List.not_mem_nil t1)
  | cons t rest ih =>
    intro t1 h1
    unfold update_first_user_team at h1
    by_cases hmem : t.members.any (fun m => m.discord_id == u) = true
    · rw [if_pos hmem] at h1
      rcases List.mem_cons.mp h1 with he | hr
      · right
        refine ⟨t, ?_, List.mem_cons_self t rest, he⟩
        unfold get_user_team
        exact find?_cons_pos _ t rest hmem
      · left
        exact List.mem_cons_of_mem t hr
    · rw [if_neg hmem] at h1
      rcases List.mem_cons.mp h1 with he | hr
      · left
        rw [he]
        exact List.mem_cons_self t rest
      · rcases ih t1 hr with hin | ⟨t2, hgut, hmem2, heq⟩
        · left
          exact List.mem_cons_of_mem t hin
        · right
          refine ⟨t2, ?_, List.mem_cons_of_mem t hmem2, heq⟩
          unfold get_user_team
          rw [find?_cons_neg _ t rest hmem]
          exact hgut

theorem mem_update_first_team_by_id (teams : List Team) (tid : Int) (f : Team → Team) :
    ∀ t1 ∈ update_first_team_by_id teams tid f, t1 ∈ teams ∨
      ∃ t, teams.find? (fun x => x.id == tid) = some t ∧ t ∈ teams ∧ t1 = f t := by
  induction teams with
  | nil => intro t1 h; exact absurd h (List.not_mem_nil t1)
  | cons t rest ih =>
    intro t1 h1
    unfold update_first_team_by_id at h1
    by_cases h : (t.id == tid) = true
    · rw [if_pos h] at h1
      rcases List.mem_cons.mp h1 with he | hr
      · right
        exact ⟨t, find?_cons_pos _ t rest h, List.mem_cons_self t rest, he⟩
      · left
        exact List.mem_cons_of_mem t hr
    · rw [if_neg h] at h1
      rcases List.mem_cons.mp h1 with he | hr
      · left
        rw [he]
        exact List.mem_cons_self t rest
      · rcases ih t1 hr with hin | ⟨t2, hf, hmem2, heq⟩
        · left
          exact List.mem_cons_of_mem t hin
        · right
          exact ⟨t2, by rw [find?_cons_neg _ t rest h]; exact hf,
            List.mem_cons_of_mem t hmem2, heq⟩

end Bingo

namespace Bingo

theorem wfBoard_spec (board : List (List Tile)) (h : wfBoard board = true) :
    board.length = 7 ∧ ∀ i : Nat, i < 7 → ∃ row, board[i]? = some row ∧ row.length = 7 ∧
      ∀ j : Nat, j < 7 → ∃ t, row[j]? = some t ∧
        t.coordinates.row = letterOfRow i ∧ t.coordinates.col = (j : Int) + 1 := by
  unfold wfBoard at h
  rw [Bool.and_eq_true, List.all_eq_true] at h
  obtain ⟨hlen, hall⟩ := h
  refine ⟨by simpa using hlen, ?_⟩
  intro i hi
  have hthis := hall i (List.mem_range.mpr hi)
  rcases hrow : board[i]? with _ | row
  · simp [hrow] at hthis
  · simp only [hrow] at hthis
    rw [Bool.and_eq_true, List.all_eq_true] at hthis
    obtain ⟨hrl, hjall⟩ := hthis
    refine ⟨row, rfl, by simpa using hrl, ?_⟩
    intro j hj
    have hjj := hjall j (List.mem_range.mpr hj)
    rcases ht : row[j]? with _ | t
    · simp [ht] at hjj
    · simp only [ht] at hjj
      rw [Bool.and_eq_true] at hjj
      exact ⟨t, rfl, by simpa using hjj.1, by simpa using hjj.2⟩

theorem wfBoard_of_spec (board : List (List Tile)) (hlen : board.length = 7)
    (hs : ∀ i : Nat, i < 7 → ∃ row, board[i]? = some row ∧ row.length = 7 ∧
      ∀ j : Nat, j < 7 → ∃ t, row[j]? = some t ∧
        t.coordinates.row = letterOfRow i ∧ t.coordinates.col = (j : Int) + 1) :
    wfBoard board = true := by
  unfold wfBoard
  rw [Bool.and_eq_true, List.all_eq_true]
  refine ⟨by simpa using hlen, ?_⟩
  intro i hi
  obtain ⟨row, hrow, hrl, hj⟩ := hs i (List.mem_range.mp hi)
  simp only [hrow]
  rw [Bool.and_eq_true, List.all_eq_true]
  refine ⟨by simpa using hrl, ?_⟩
  intro j hjm
  obtain ⟨t, ht, h1, h2⟩ := hj j (List.mem_range.mp hjm)
  simp only [ht]
  rw [Bool.and_eq_true]
  exact ⟨by simpa using h1, by simpa using h2⟩

theorem boardOK_iff (ml : List MoveLog) (tid : Int) (board : List (List Tile)) :
    boardOK ml tid board = true ↔ ∀ row ∈ board, ∀ t ∈ row, tileOK ml tid t = true := by
  unfold boardOK
  simp [List.all_eq_true]

theorem tileOK_iff (ml : List MoveLog) (tid : Int) (t : Tile) :
    tileOK ml tid t = true ↔
      t.revealed = coordIn ml tid t.coordinates.row t.coordinates.col := by
  unfold tileOK
  exact beq_iff_eq ..

theorem wfBoard_map (board : List (List Tile)) (h : Tile → Tile)
    (hc : ∀ t, (h t).coordinates = t.coordinates)
    (hwf : wfBoard board = true) :
    wfBoard (board.map (fun row => row.map h)) = true := by
  obtain ⟨hlen, hs⟩ := wfBoard_spec board hwf
  apply wfBoard_of_spec
  · simpa using hlen
  · intro i hi
    obtain ⟨row, hrow, hrl, hj⟩ := hs i hi
    refine ⟨row.map h, ?_, by simpa using hrl, ?_⟩
    · rw [List.getElem?_map, hrow]
      rfl
    · intro j hjlt
      obtain ⟨t, ht, h1, h2⟩ := hj j hjlt
      refine ⟨h t, ?_, ?_, ?_⟩
      · rw [List.getElem?_map, ht]
        rfl
      · rw [hc]
        exact h1
      · rw [hc]
        exact h2

theorem canonCoord_spec (p : PyCoord) (h : canonCoord p = true) :
    ∃ ch : Char, p.row.data = [ch] ∧ 65 ≤ ch.toNat ∧ ch.toNat ≤ 71 ∧
      1 ≤ p.col ∧ p.col ≤ 7 ∧ pyUpper p.row = p.row := by
  unfold canonCoord at h
  rw [Bool.and_eq_true, Bool.and_eq_true] at h
  obtain ⟨⟨hrow, hc1⟩, hc2⟩ := h
  rcases hd : p.row.data with _ | ⟨ch, rest⟩
  · rw [hd] at hrow
    simp at hrow
  · rcases rest with _ | ⟨ch2, rest2⟩
    · rw [hd] at hrow
      rw [Bool.and_eq_true] at hrow
      refine ⟨ch, rfl, by simpa using hrow.1, by simpa using hrow.2,
        by simpa using hc1, by simpa using hc2, ?_⟩
      have hfix : ch.toUpper = ch :=
        char_toUpper_of_upper ch (by simpa using hrow.1) (by simpa using hrow.2)
      unfold pyUpper
      rw [hd, List.map_cons, List.map_nil, hfix]
      conv_rhs => rw [← string_eta p.row]
      rw [hd]
    · rw [hd] at hrow
      simp at hrow

theorem canonCoord_of (p : PyCoord) (ch : Char) (hd : p.row.data = [ch])
    (h1 : 65 ≤ ch.toNat) (h2 : ch.toNat ≤ 71) (h3 : 1 ≤ p.col) (h4 : p.col ≤ 7) :
    canonCoord p = true := by
  unfold canonCoord
  rw [hd]
  rw [Bool.and_eq_true, Bool.and_eq_true, Bool.and_eq_true]
  exact ⟨⟨⟨decide_eq_true h1, decide_eq_true h2⟩, decide_eq_true h3⟩, decide_eq_true h4⟩

theorem pyOrd_eq_some (s : String) (o : Nat) (h : pyOrd s = some o) :
    ∃ ch : Char, s.data = [ch] ∧ ch.toNat = o := by
  unfold pyOrd at h
  split at h
  · rename_i ch heq
    exact ⟨ch, heq, by injection h⟩
  · exact absurd h (by simp)

theorem get_tile_ok_canon (board : List (List Tile)) (coord : PyCoord) (t0 : Tile)
    (hwf : wfBoard board = true)
    (hupper : pyUpper coord.row = coord.row)
    (h : get_tile board coord = .ok (some t0)) :
    canonCoord coord = true ∧
    t0.coordinates.row = coord.row ∧ t0.coordinates.col = coord.col ∧
    ∃ i j, i < 7 ∧ j < 7 ∧ tileAt board i j = some t0 ∧
      coordIdx coord = some ((i : Int), (j : Int)) ∧
      t0.coordinates.row = letterOfRow i ∧ t0.coordinates.col = (j : Int) + 1 := by
  obtain ⟨ri, ci, row, hidx, hrange, hrow, ht, hw⟩ := get_tile_some_inv _ _ _ h
  obtain ⟨hr0, hr1, hr2, hr3⟩ := hrange
  have hidx2 := hidx
  unfold coordIdx at hidx2
  rw [hupper] at hidx2
  rcases ho : pyOrd coord.row with _ | o
  · rw [ho] at hidx2
    simp at hidx2
  · rw [ho] at hidx2
    simp only [Option.map_some', Option.some.injEq] at hidx2
    obtain ⟨hri_eq, hci_eq⟩ := Prod.ext_iff.mp hidx2
    obtain ⟨ch, hch, hcho⟩ := pyOrd_eq_some coord.row o ho
    obtain ⟨hblen, hspec⟩ := wfBoard_spec board hwf
    have hri7 : ri.toNat < 7 := by omega
    have hci7 : ci.toNat < 7 := by omega
    obtain ⟨row2, hrow2, hrl2, hj2⟩ := hspec ri.toNat hri7
    have hrow_eq : row2 = row := by
      rw [hrow2] at hrow
      injection hrow
    subst hrow_eq
    obtain ⟨t2, ht2, hco1, hco2⟩ := hj2 ci.toNat hci7
    have ht_eq : t2 = t0 := by
      rw [ht2] at ht
      injection ht
    subst ht_eq
    have hrow_str : letterOfRow ri.toNat = coord.row := by
      unfold letterOfRow
      have he : 65 + ri.toNat = ch.toNat := by omega
      rw [he, Char.ofNat_toNat]
      conv_rhs => rw [← string_eta coord.row]
      rw [hch]
    refine ⟨?_, ?_, ?_, ri.toNat, ci.toNat, hri7, hci7, ?_, ?_, ?_, ?_⟩
    · exact canonCoord_of coord ch hch (by omega) (by omega) (by omega) (by omega)
    · rw [hco1, hrow_str]
    · rw [hco2]
      omega
    · simp only [tileAt, hrow2, ht2]
    · rw [hidx]
      congr 2 <;> omega
    · rw [hco1]
    · rw [hco2]

theorem get_tile_ok_of_canon (board : List (List Tile)) (coord : PyCoord)
    (hwf : wfBoard board = true) (hcanon : canonCoord coord = true) :
    ∃ t0, get_tile board coord = .ok (some t0) := by
  obtain ⟨ch, hd, h1, h2, h3, h4, hupper⟩ := canonCoord_spec coord hcanon
  have hord : pyOrd (pyUpper coord.row) = some ch.toNat := by
    rw [hupper]
    unfold pyOrd
    rw [hd]
  have hidx : coordIdx coord = some ((ch.toNat : Int) - 65, coord.col - 1) := by
    unfold coordIdx
    rw [hord]
    rfl
  obtain ⟨hblen, hspec⟩ := wfBoard_spec board hwf
  have hri7 : ch.toNat - 65 < 7 := by omega
  have hci7 : (coord.col - 1).toNat < 7 := by omega
  obtain ⟨row, hrow, hrl, hj⟩ := hspec (ch.toNat - 65) hri7
  obtain ⟨t, ht, hco1, hco2⟩ := hj (coord.col - 1).toNat hci7
  refine ⟨t, ?_⟩
  simp only [get_tile, hidx]
  rw [if_pos (by refine ⟨by omega, by omega, by omega, by omega⟩)]
  have hrn : ((ch.toNat : Int) - 65).toNat = ch.toNat - 65 := by omega
  simp only [hrn, hrow, ht]

end Bingo

namespace Bingo

theorem tileAt_map (board : List (List Tile)) (h : Tile → Tile) (i j : Nat) :
    tileAt (board.map (fun row => row.map h)) i j = (tileAt board i j).map h := by
  unfold tileAt
  rw [List.getElem?_map]
  rcases board[i]? with _ | row
  · rfl
  · simp only [Option.map_some']
    rw [List.getElem?_map]

theorem tileAt_of_mem (board : List (List Tile)) (row : List Tile) (t : Tile)
    (hr : row ∈ board) (ht : t ∈ row) : ∃ i j, tileAt board i j = some t := by
  obtain ⟨i, hi⟩ := List.mem_iff_getElem?.mp hr
  obtain ⟨j, hj⟩ := List.mem_iff_getElem?.mp ht
  refine ⟨i, j, ?_⟩
  simp only [tileAt, hi, hj]

theorem tileAt_wf (board : List (List Tile)) (hwf : wfBoard board = true) (i j : Nat)
    (t : Tile) (h : tileAt board i j = some t) :
    i < 7 ∧ j < 7 ∧ t.coordinates.row = letterOfRow i ∧ t.coordinates.col = (j : Int) + 1 := by
  obtain ⟨hlen, hspec⟩ := wfBoard_spec board hwf
  unfold tileAt at h
  rcases hrow : board[i]? with _ | row
  · rw [hrow] at h
    exact absurd h (by simp)
  · have hi : i < 7 := by
      have := (List.getElem?_eq_some_iff.mp hrow).1
      omega
    obtain ⟨row2, hrow2, hrl2, hj2⟩ := hspec i hi
    have hre : row2 = row := by
      rw [hrow2] at hrow
      injection hrow
    subst hre
    simp only [hrow] at h
    have hj : j < 7 := by
      have := (List.getElem?_eq_some_iff.mp h).1
      omega
    obtain ⟨t2, ht2, hc1, hc2⟩ := hj2 j hj
    have hte : t2 = t := by
      rw [ht2] at h
      injection h
    subst hte
    exact ⟨hi, hj, hc1, hc2⟩

theorem tileAt_write_tile (board : List (List Tile)) (coord : PyCoord) (t0 t2 : Tile)
    (i j : Nat)
    (h : get_tile board coord = .ok (some t0))
    (hidx : coordIdx coord = some ((i : Int), (j : Int))) :
    (∀ i2 j2 : Nat, tileAt (write_tile board coord t2) i2 j2 =
      if i2 = i ∧ j2 = j then some t2 else tileAt board i2 j2) ∧
    (write_tile board coord t2).length = board.length ∧
    (∀ (i2 : Nat) (row2 : List Tile), (write_tile board coord t2)[i2]? = some row2 →
      ∃ row0, board[i2]? = some row0 ∧ row2.length = row0.length) := by
  obtain ⟨ri, ci, row, hidx0, hrange, hrow, ht, hw⟩ := get_tile_some_inv _ _ _ h
  have hrc : ri = (i : Int) ∧ ci = (j : Int) := by
    rw [hidx0] at hidx
    have := Option.some.injEq .. ▸ hidx
    exact Prod.ext_iff.mp (by injection hidx)
  have hri : ri.toNat = i := by omega
  have hci : ci.toNat = j := by omega
  have hilen : i < board.length := by
    have := (List.getElem?_eq_some_iff.mp hrow).1
    omega
  have hjlen : j < row.length := by
    have := (List.getElem?_eq_some_iff.mp ht).1
    omega
  have hw2 : write_tile board coord t2 = board.set i (row.set j t2) := by
    rw [hw t2, hri, hci]
  have hrowI : board[i]? = some row := by
    rw [← hri]
    exact hrow
  refine ⟨?_, ?_, ?_⟩
  · intro i2 j2
    rw [hw2]
    by_cases hi2 : i2 = i
    · subst hi2
      by_cases hj2 : j2 = j
      · subst hj2
        simp only [tileAt, List.getElem?_set_self (show i2 < board.length by omega),
          List.getElem?_set_self (show j2 < row.length by omega)]
        simp
      · have e1 : (board.set i2 (row.set j t2))[i2]? = some (row.set j t2) :=
          List.getElem?_set_self (by omega)
        have e2 : (row.set j t2)[j2]? = row[j2]? := by
          rw [List.getElem?_set, if_neg (by omega)]
        simp only [tileAt, e1, e2, hrowI]
        rw [if_neg (by intro hh; exact hj2 hh.2)]
    · have e1 : (board.set i (row.set j t2))[i2]? = board[i2]? := by
        rw [List.getElem?_set, if_neg (by omega)]
      simp only [tileAt, e1]
      rw [if_neg (by intro hh; exact hi2 hh.1)]
  · rw [hw2, List.length_set]
  · intro i2 row2 hrow2
    rw [hw2] at hrow2
    by_cases hi2 : i2 = i
    · subst hi2
      rw [List.getElem?_set_self (by omega)] at hrow2
      have hset : row.set j t2 = row2 := by injection hrow2
      refine ⟨row, hrowI, ?_⟩
      rw [← hset, List.length_set]
    · rw [List.getElem?_set, if_neg (by omega)] at hrow2
      exact ⟨row2, hrow2, rfl⟩

theorem wfBoard_write_tile (board : List (List Tile)) (coord : PyCoord) (t0 t2 : Tile)
    (h : get_tile board coord = .ok (some t0))
    (hco : t2.coordinates = t0.coordinates)
    (hwf : wfBoard board = true)
    (hupper : pyUpper coord.row = coord.row) :
    wfBoard (write_tile board coord t2) = true := by
  obtain ⟨hcanon, hrow0, hcol0, i, j, hi, hj, htile, hidx, hrl, hcl⟩ :=
    get_tile_ok_canon board coord t0 hwf hupper h
  obtain ⟨hpt, hlen, hrows⟩ := tileAt_write_tile board coord t0 t2 i j h hidx
  obtain ⟨hblen, hspec⟩ := wfBoard_spec board hwf
  apply wfBoard_of_spec
  · omega
  · intro i2 hi2
    obtain ⟨row0, hrow0b, hrl0, hj0⟩ := hspec i2 hi2
    have hlt : i2 < (write_tile board coord t2).length := by omega
    have hex : ∃ row2, (write_tile board coord t2)[i2]? = some row2 :=
      ⟨_, List.getElem?_eq_getElem hlt⟩
    obtain ⟨row2, hrow2⟩ := hex
    obtain ⟨row0b, hrow0c, hrlen2⟩ := hrows i2 row2 hrow2
    have hre : row0b = row0 := by
      rw [hrow0b] at hrow0c
      exact (Option.some.inj hrow0c).symm
    subst hre
    refine ⟨row2, hrow2, by omega, ?_⟩
    intro j2 hj2
    have htA : tileAt (write_tile board coord t2) i2 j2 =
        if i2 = i ∧ j2 = j then some t2 else tileAt board i2 j2 := hpt i2 j2
    by_cases hcase : i2 = i ∧ j2 = j
    · obtain ⟨hc1, hc2⟩ := hcase
      subst hc1
      subst hc2
      rw [if_pos ⟨rfl, rfl⟩] at htA
      simp only [tileAt, hrow2] at htA
      refine ⟨t2, htA, ?_, ?_⟩
      · rw [hco, hrl]
      · rw [hco, hcl]
    · rw [if_neg hcase] at htA
      obtain ⟨t3, ht3, hc31, hc32⟩ := hj0 j2 hj2
      have htB : tileAt board i2 j2 = some t3 := by
        simp only [tileAt, hrow0b]
        exact ht3
      rw [htB] at htA
      simp only [tileAt, hrow2] at htA
      exact ⟨t3, htA, hc31, hc32⟩

theorem markIf_coordinates (ml : List MoveLog) (tid : Int) (t : Tile) :
    (markIf ml tid t).coordinates = t.coordinates := by
  unfold markIf
  split <;> rfl

theorem markIf_of_revealed (ml : List MoveLog) (tid : Int) (t : Tile)
    (h : t.revealed = true) : markIf ml tid t = t := by
  unfold markIf
  split
  · cases t
    simp only at h
    rw [h]
  · rfl

theorem tileOK_markIf_unrevealed (ml : List MoveLog) (tid : Int) (t : Tile)
    (h : t.revealed = false) : tileOK ml tid (markIf ml tid t) = true := by
  cases hc : coordIn ml tid t.coordinates.row t.coordinates.col
  · simp [tileOK, markIf, hc, h]
  · simp [tileOK, markIf, hc]

theorem coordIn_cons (m : MoveLog) (ml : List MoveLog) (tid : Int) (r : String) (c : Int) :
    coordIn (m :: ml) tid r c =
      ((m.team_id == tid && m.coord.row == r && m.coord.col == c) || coordIn ml tid r c) := by
  unfold coordIn
  rw [List.any_cons]

theorem parse_coord_upper (cs : String) (r : String) (c : Int)
    (h : parse_coord cs = some (r, c)) : pyUpper r = r := by
  unfold parse_coord at h
  split at h
  · split at h
    · injection h with h2
      rw [Prod.mk.injEq] at h2
      rw [← h2.1, pyUpper_idem]
    · exact absurd h (by simp)
  · exact absurd h (by simp)

theorem GInv_congr (s s1 : GState) (ht : s1.teams = s.teams)
    (hm : s1.move_log = s.move_log) (h : GInv s) : GInv s1 := by
  unfold GInv at h ⊢
  rw [ht, hm]
  exact h

theorem mem_of_getElem_opt {α : Type} (l : List α) (i : Nat) (a : α) (h : l[i]? = some a) :
    a ∈ l := by
  obtain ⟨hlt, heq⟩ := List.getElem?_eq_some_iff.mp h
  rw [← heq]
  first
  | exact List.getElem_mem hlt
  | exact List.getElem_mem l i hlt

theorem boardOK_tileAt (ml : List MoveLog) (tid : Int) (board : List (List Tile))
    (h : ∀ i j : Nat, ∀ t : Tile, tileAt board i j = some t → tileOK ml tid t = true) :
    boardOK ml tid board = true := by
  rw [boardOK_iff]
  intro row hrow t ht
  obtain ⟨i, j, hij⟩ := tileAt_of_mem board row t hrow ht
  exact h i j t hij

theorem tileOK_of_boardOK (ml : List MoveLog) (tid : Int) (board : List (List Tile))
    (h : boardOK ml tid board = true) (i j : Nat) (t : Tile)
    (ht : tileAt board i j = some t) : tileOK ml tid t = true := by
  rw [boardOK_iff] at h
  unfold tileAt at ht
  rcases hrow : board[i]? with _ | row
  · rw [hrow] at ht
    exact absurd ht (by simp)
  · rw [hrow] at ht
    exact h row (mem_of_getElem_opt _ _ _ hrow) t (mem_of_getElem_opt _ _ _ ht)

theorem get_user_team_decomp (teams : List Team) (u : Int) (team : Team)
    (h : get_user_team teams u = some team) (g : Team → Team) :
    ∃ l1 l2, teams = l1 ++ team :: l2 ∧
      update_first_user_team teams u g = l1 ++ g team :: l2 := by
  induction teams with
  | nil => exact absurd h (by simp [get_user_team])
  | cons t rest ih =>
    unfold get_user_team at h
    by_cases hmem : t.members.any (fun m => m.discord_id == u) = true
    · rw [find?_cons_pos _ t rest hmem] at h
      have hte : t = team := by injection h
      refine ⟨[], rest, by rw [hte]; rfl, ?_⟩
      unfold update_first_user_team
      rw [if_pos hmem, hte]
      rfl
    · rw [find?_cons_neg _ t rest hmem] at h
      obtain ⟨l1, l2, he1, he2⟩ := ih h
      refine ⟨t :: l1, l2, by rw [List.cons_append, ← he1], ?_⟩
      unfold update_first_user_team
      rw [if_neg hmem, he2]
      rfl

theorem find_team_decomp (teams : List Team) (tid : Int) (team : Team)
    (h : teams.find? (fun t => t.id == tid) = some team) (f : Team → Team) :
    ∃ l1 l2, teams = l1 ++ team :: l2 ∧
      update_first_team_by_id teams tid f = l1 ++ f team :: l2 := by
  induction teams with
  | nil => exact absurd h (by simp)
  | cons t rest ih =>
    by_cases hp : (t.id == tid) = true
    · rw [find?_cons_pos _ t rest hp] at h
      have hte : t = team := by injection h
      refine ⟨[], rest, by rw [hte]; rfl, ?_⟩
      unfold update_first_team_by_id
      rw [if_pos hp, hte]
      rfl
    · rw [find?_cons_neg _ t rest hp] at h
      obtain ⟨l1, l2, he1, he2⟩ := ih h
      refine ⟨t :: l1, l2, by rw [List.cons_append, ← he1], ?_⟩
      unfold update_first_team_by_id
      rw [if_neg hp, he2]
      rfl

theorem id_ne_of_nodup (l1 l2 : List Team) (team t1 : Team)
    (hnd : ((l1 ++ team :: l2).map Team.id).Nodup)
    (hmem : t1 ∈ l1 ++ l2) : t1.id ≠ team.id := by
  rw [List.map_append, List.map_cons, List.nodup_append] at hnd
  obtain ⟨h1, h2, hdisj⟩ := hnd
  rcases List.mem_append.mp hmem with hm | hm
  · intro he
    exact hdisj (List.mem_map_of_mem Team.id hm)
      (by rw [he]; exact List.mem_cons_self _ _)
  · intro he
    rw [List.nodup_cons] at h2
    exact h2.1 (by rw [← he]; exact List.mem_map_of_mem Team.id hm)

theorem coordIn_snoc_miss (ml : List MoveLog) (m : MoveLog) (tid : Int) (r : String) (c : Int)
    (h : ¬(m.team_id = tid ∧ m.coord.row = r ∧ m.coord.col = c)) :
    coordIn (ml ++ [m]) tid r c = coordIn ml tid r c := by
  rw [coordIn_append]
  have h1 : coordIn [m] tid r c = false := by
    unfold coordIn
    rw [List.any_cons, List.any_nil, Bool.or_false]
    by_contra hcon
    rw [Bool.not_eq_false, Bool.and_eq_true, Bool.and_eq_true] at hcon
    exact h ⟨by simpa using hcon.1.1, by simpa using hcon.1.2, by simpa using hcon.2⟩
  rw [h1, Bool.or_false]

theorem tileOK_congr (ml1 ml2 : List MoveLog) (tid : Int) (t : Tile)
    (h : coordIn ml2 tid t.coordinates.row t.coordinates.col =
         coordIn ml1 tid t.coordinates.row t.coordinates.col)
    (h1 : tileOK ml1 tid t = true) : tileOK ml2 tid t = true := by
  rw [tileOK_iff] at h1 ⊢
  rw [h]
  exact h1

theorem boardOK_congr (ml1 ml2 : List MoveLog) (tid : Int) (board : List (List Tile))
    (h : ∀ r c, coordIn ml2 tid r c = coordIn ml1 tid r c)
    (h1 : boardOK ml1 tid board = true) : boardOK ml2 tid board = true := by
  rw [boardOK_iff] at h1 ⊢
  intro row hrow t ht
  exact tileOK_congr ml1 ml2 tid t (h _ _) (h1 row hrow t ht)

theorem coordIn_erase_ne (ml : List MoveLog) (lm : MoveLog) (tid : Int) (r : String) (c : Int)
    (hne : ¬(lm.team_id = tid ∧ lm.coord.row = r ∧ lm.coord.col = c)) :
    coordIn (ml.erase lm) tid r c = coordIn ml tid r c := by
  rw [Bool.eq_iff_iff]
  unfold coordIn
  simp only [List.any_eq_true, Bool.and_eq_true, beq_iff_eq]
  constructor
  · rintro ⟨m, hm, hp⟩
    exact ⟨m, List.mem_of_mem_erase hm, hp⟩
  · rintro ⟨m, hm, hp⟩
    refine ⟨m, ?_, hp⟩
    have hmne : m ≠ lm := by
      intro he
      exact hne (by rw [← he]; exact ⟨hp.1.1, hp.1.2, hp.2⟩)
    exact (List.mem_erase_of_ne hmne).mpr hm

theorem coordIn_of_none (l : List MoveLog) (lm : MoveLog)
    (hl : ∀ m ∈ l, m.team_id = lm.team_id →
      (m.coord.row, m.coord.col) ≠ (lm.coord.row, lm.coord.col)) :
    coordIn l lm.team_id lm.coord.row lm.coord.col = false := by
  unfold coordIn
  rw [List.any_eq_false]
  intro m hm
  intro hp
  rw [Bool.and_eq_true, Bool.and_eq_true] at hp
  obtain ⟨⟨hp1, hp2⟩, hp3⟩ := hp
  exact hl m hm (by simpa using hp1)
    (by rw [Prod.mk.injEq]; exact ⟨by simpa using hp2, by simpa using hp3⟩)

theorem coordIn_erase_self (ml : List MoveLog) (lm : MoveLog)
    (hmem : lm ∈ ml)
    (hpw : List.Pairwise (fun m1 m2 : MoveLog => m1.team_id = m2.team_id →
      (m1.coord.row, m1.coord.col) ≠ (m2.coord.row, m2.coord.col)) ml) :
    coordIn (ml.erase lm) lm.team_id lm.coord.row lm.coord.col = false := by
  obtain ⟨l1, l2, hnotmem, he, herase⟩ := List.exists_erase_eq hmem
  rw [herase]
  rw [he, List.pairwise_append] at hpw
  obtain ⟨hp1, hp2, hcross⟩ := hpw
  rw [List.pairwise_cons] at hp2
  obtain ⟨hlm2, _⟩ := hp2
  rw [coordIn_append]
  have e1 : coordIn l1 lm.team_id lm.coord.row lm.coord.col = false :=
    coordIn_of_none l1 lm (fun m hm => hcross m hm lm (List.mem_cons_self lm l2))
  have e2 : coordIn l2 lm.team_id lm.coord.row lm.coord.col = false :=
    coordIn_of_none l2 lm (fun m hm hteq hq => hlm2 m hm hteq.symm (by rw [hq]))
  rw [e1, e2]
  rfl

theorem apply_moves_spec (ml : List MoveLog) (tid : Int) :
    ∀ board : List (List Tile), wfBoard board = true →
      (∀ m ∈ ml, m.team_id = tid → canonCoord m.coord = true) →
      ∃ b1, apply_moves ml tid board = .ok b1 ∧ wfBoard b1 = true ∧
        ∀ i j : Nat, tileAt b1 i j = (tileAt board i j).map (markIf ml tid) := by
  induction ml with
  | nil =>
    intro board hwf _
    refine ⟨board, rfl, hwf, ?_⟩
    intro i j
    cases htb : tileAt board i j
    · rfl
    · simp [markIf, coordIn]
  | cons m rest ih =>
    intro board hwf hcanon
    by_cases hteq : (m.team_id == tid) = true
    · have hcm : canonCoord m.coord = true :=
        hcanon m (List.mem_cons_self m rest) (by simpa using hteq)
      obtain ⟨ch, hd, hch1, hch2, hch3, hch4, hupper⟩ := canonCoord_spec m.coord hcm
      obtain ⟨t0, hget⟩ := get_tile_ok_of_canon board m.coord hwf hcm
      obtain ⟨_, hrow0, hcol0, i0, j0, hi0, hj0, htile0, hidx0, hrl0, hcl0⟩ :=
        get_tile_ok_canon board m.coord t0 hwf hupper hget
      have hwf2 : wfBoard (write_tile board m.coord ({ t0 with revealed := true })) = true :=
        wfBoard_write_tile board m.coord t0 _ hget rfl hwf hupper
      obtain ⟨b1, hap, hwf1, hspec1⟩ :=
        ih (write_tile board m.coord ({ t0 with revealed := true })) hwf2
          (fun m2 hm2 ht2 => hcanon m2 (List.mem_cons_of_mem m hm2) ht2)
      refine ⟨b1, ?_, hwf1, ?_⟩
      · unfold apply_moves
        rw [if_pos hteq]
        simp only [hget]
        exact hap
      · intro i j
        rw [hspec1 i j]
        obtain ⟨hpt, hlen, hrows⟩ := tileAt_write_tile board m.coord t0 _ i0 j0 hget hidx0
        rw [hpt i j]
        by_cases hij : i = i0 ∧ j = j0
        · obtain ⟨h1, h2⟩ := hij
          subst h1
          subst h2
          rw [if_pos ⟨rfl, rfl⟩, htile0]
          simp only [Option.map_some']
          rw [markIf_of_revealed rest tid _ rfl]
          have hin : coordIn (m :: rest) tid t0.coordinates.row t0.coordinates.col = true := by
            rw [coordIn_cons]
            apply Bool.or_eq_true_iff.mpr
            left
            rw [hrow0, hcol0]
            simp [hteq]
          unfold markIf
          rw [if_pos hin]
        · rw [if_neg hij]
          cases htb : tileAt board i j
          · rfl
          · rename_i t3
            simp only [Option.map_some']
            obtain ⟨hi3, hj3, hr3, hc3⟩ := tileAt_wf board hwf i j t3 htb
            have hhead : (m.team_id == tid && m.coord.row == t3.coordinates.row &&
                m.coord.col == t3.coordinates.col) = false := by
              by_contra hcon
              rw [Bool.not_eq_false, Bool.and_eq_true, Bool.and_eq_true] at hcon
              obtain ⟨⟨hht, hrr⟩, hcc⟩ := hcon
              apply hij
              constructor
              · refine (letterOfRow_inj i0 i hi0 hi3 ?_).symm
                rw [← hrl0, hrow0, (by simpa using hrr : m.coord.row = t3.coordinates.row), hr3]
              · have he : ((j0 : Int)) + 1 = (j : Int) + 1 := by
                  rw [← hcl0, hcol0, (by simpa using hcc : m.coord.col = t3.coordinates.col), hc3]
                omega
            unfold markIf
            rw [coordIn_cons, hhead, Bool.false_or]
    · obtain ⟨b1, hap, hwf1, hspec1⟩ :=
        ih board hwf (fun m2 hm2 ht2 => hcanon m2 (List.mem_cons_of_mem m hm2) ht2)
      refine ⟨b1, ?_, hwf1, ?_⟩
      · unfold apply_moves
        rw [if_neg hteq]
        exact hap
      intro i j
      rw [hspec1 i j]
      cases htb : tileAt board i j
      · rfl
      · rename_i t3
        simp only [Option.map_some']
        have hA : (m.team_id == tid) = false := by
          cases hx : (m.team_id == tid)
          · rfl
          · exact absurd hx hteq
        unfold markIf
        rw [coordIn_cons, hA, Bool.false_and, Bool.false_and, Bool.false_or]

theorem apply_move_log_ok (ml : List MoveLog) (team : Team)
    (hwf : wfBoard team.board = true)
    (hcanon : ∀ m ∈ ml, m.team_id = team.id → canonCoord m.coord = true) :
    ∃ b1, apply_move_log_to_board ml team = .ok ({ team with board := b1 }) ∧
      wfBoard b1 = true ∧ boardOK ml team.id b1 = true := by
  have hwfr : wfBoard (reset_board team.board) = true := by
    unfold reset_board
    exact wfBoard_map team.board _ (fun t => rfl) hwf
  obtain ⟨b1, hap, hwf1, hspec⟩ := apply_moves_spec ml team.id (reset_board team.board) hwfr hcanon
  refine ⟨b1, ?_, hwf1, ?_⟩
  · unfold apply_move_log_to_board
    rw [hap]
    rfl
  · apply boardOK_tileAt
    intro i j t ht
    rw [hspec i j] at ht
    have hrt : tileAt (reset_board team.board) i j =
        (tileAt team.board i j).map (fun t => { t with revealed := false }) := by
      unfold reset_board
      exact tileAt_map team.board _ i j
    rw [hrt] at ht
    cases htb : tileAt team.board i j
    · rw [htb] at ht
      exact absurd ht (by simp)
    · rename_i t4
      rw [htb] at ht
      simp only [Option.map_some', Option.some.injEq] at ht
      rw [← ht]
      exact tileOK_markIf_unrevealed ml team.id _ rfl

theorem render_board_fst (ml : List MoveLog) (board : List (List Tile)) (tid : Int) :
    (render_board_view ml board tid).1 =
      board.map (fun row => row.map (markIf ml tid)) := by
  simp only [render_board_view]
  apply List.map_congr_left
  intro row _
  apply List.map_congr_left
  intro t _
  rw [contains_pair_eq_coordIn]
  rfl

theorem boardOK_render (ml : List MoveLog) (tid : Int) (board : List (List Tile))
    (h : boardOK ml tid board = true) :
    boardOK ml tid (board.map (fun row => row.map (markIf ml tid))) = true := by
  rw [boardOK_iff] at h ⊢
  intro row hrow t ht
  obtain ⟨row0, hrow0, hre⟩ := List.mem_map.mp hrow
  subst hre
  obtain ⟨t0, ht0, hte⟩ := List.mem_map.mp ht
  subst hte
  have h0 := h row0 hrow0 t0 ht0
  rw [tileOK_iff] at h0 ⊢
  rw [markIf_coordinates]
  by_cases hc : coordIn ml tid t0.coordinates.row t0.coordinates.col = true
  · unfold markIf
    rw [if_pos hc, hc]
  · unfold markIf
    rw [if_neg hc]
    exact h0

theorem project_f_eta (ml : List MoveLog) (t : Team) (b1 : List (List Tile))
    (h : apply_move_log_to_board ml t = .ok ({ t with board := b1 })) :
    (match apply_move_log_to_board ml t with
     | .ok t1 => t1
     | .error _ => t) = { t with board := b1 } := by
  rw [h]

theorem project_f_id (ml : List MoveLog) (t : Team) :
    (match apply_move_log_to_board ml t with
     | .ok t1 => t1
     | .error _ => t).id = t.id := by
  unfold apply_move_log_to_board Except.map
  rcases h : apply_moves ml t.id (reset_board t.board) with e | b
  · simp only [h]
  · simp only [h]

theorem mem_of_getLast_opt {α : Type} : ∀ (l : List α) (a : α), l.getLast? = some a → a ∈ l := by
  intro l
  induction l with
  | nil =>
    intro a h
    exact absurd h (by simp)
  | cons x xs ih =>
    intro a h
    cases xs with
    | nil =>
      rw [List.getLast?_singleton] at h
      have h2 : x = a := by injection h
      rw [← h2]
      exact List.mem_singleton_self x
    | cons y ys =>
      rw [List.getLast?_cons_cons] at h
      exact List.mem_cons_of_mem x (ih a h)

theorem select_preserves_GInv (s : GState) (u : Int) (cs : String) (now : ℚ) (ts : String)
    (hinv : GInv s) : GInv (select_tile s u cs now ts).1 := by
  by_cases hsuc : ((select_tile s u cs now ts).2).isSuccess = true
  case neg =>
    have hff := select_tile_fail_frame s u cs now ts (by simpa using hsuc)
    exact GInv_congr s _ hff.1 hff.2.1 hinv
  case pos =>
    obtain ⟨hnd, hwf, hcanon, hok, hpw⟩ := hinv
    rcases hsel : select_tile s u cs now ts with ⟨s1, o⟩
    rw [hsel] at hsuc
    rcases o with _ | _ | _ | _ | _ | tile | _ <;> simp [Outcome.isSuccess] at hsuc
    show GInv s1
    obtain ⟨team, r, c, tile0, hgut, hpc, hget, hrev0, htile_eq, hany, hteams, hlog, hcds, hfile⟩ :=
      select_tile_success_inv s u cs now ts s1 tile hsel
    have hupper : pyUpper (PyCoord.tup r c).row = (PyCoord.tup r c).row :=
      parse_coord_upper cs r c hpc
    have hteam_mem : team ∈ s.teams := by
      have hgut2 : s.teams.find? (fun t => t.members.any (fun m => m.discord_id == u)) =
          some team := hgut
      exact List.mem_of_find?_eq_some hgut2
    have hwfteam : wfBoard team.board = true := hwf team hteam_mem
    obtain ⟨hcanonC, hr0, hc0, i, j, hi, hj, htileat, hidx, hrl, hcl⟩ :=
      get_tile_ok_canon team.board (.tup r c) tile0 hwfteam hupper hget
    obtain ⟨l1, l2, hsplit, hupd⟩ := get_user_team_decomp s.teams u team hgut
      (fun t => { t with board := write_tile t.board (.tup r c) ({ tile0 with revealed := true }) })
    have hteams2 : s1.teams = l1 ++ ({ team with
        board := write_tile team.board (.tup r c) ({ tile0 with revealed := true }) }) :: l2 :=
      hteams.trans hupd
    have hmem_of : ∀ t2 ∈ l1 ++ l2, t2 ∈ s.teams := by
      intro t2 h2
      rw [hsplit]
      rcases List.mem_append.mp h2 with hx | hx
      · exact List.mem_append_left _ hx
      · exact List.mem_append_right _ (List.mem_cons_of_mem _ hx)
    refine ⟨?_, ?_, ?_, ?_, ?_⟩
    · rw [hteams, map_id_update_first_user_team s.teams u
        (fun t => { t with
          board := write_tile t.board (.tup r c) ({ tile0 with revealed := true }) })
        (fun t => rfl)]
      exact hnd
    · intro t1 ht1
      rw [hteams2] at ht1
      rcases List.mem_append.mp ht1 with hm | hm
      · exact hwf t1 (hmem_of t1 (List.mem_append_left _ hm))
      · rcases List.mem_cons.mp hm with he | hm2
        · rw [he]
          exact wfBoard_write_tile team.board (.tup r c) tile0 _ hget rfl hwfteam hupper
        · exact hwf t1 (hmem_of t1 (List.mem_append_right _ hm2))
    · intro m hm
      rw [hlog] at hm
      rcases List.mem_append.mp hm with hm1 | hm1
      · exact hcanon m hm1
      · rcases List.mem_cons.mp hm1 with he | hnil
        · rw [he]
          exact hcanonC
        · exact absurd hnil (List.not_mem_nil m)
    · intro t1 ht1
      rw [hteams2] at ht1
      rw [hlog]
      have hsub : t1 ∈ l1 ++ l2 ∨ t1 = ({ team with
          board := write_tile team.board (.tup r c) ({ tile0 with revealed := true }) }) := by
        rcases List.mem_append.mp ht1 with hm | hm
        · exact Or.inl (List.mem_append_left _ hm)
        · rcases List.mem_cons.mp hm with he | hm2
          · exact Or.inr he
          · exact Or.inl (List.mem_append_right _ hm2)
      rcases hsub with hm | he
      · have hne : t1.id ≠ team.id := id_ne_of_nodup l1 l2 team t1
          (by rw [← hsplit]; exact hnd) hm
        apply boardOK_congr s.move_log _ t1.id t1.board
        · intro r2 c2
          apply coordIn_snoc_miss
          intro hcon
          exact hne hcon.1.symm
        · exact hok t1 (hmem_of t1 hm)
      · rw [he]
        show boardOK (s.move_log ++ [({ team_id := team.id, discord_id := u, coord := .tup r c, timestamp := ts } : MoveLog)]) team.id (write_tile team.board (.tup r c) ({ tile0 with revealed := true })) = true
        obtain ⟨hpt, hlen2, hrows2⟩ := tileAt_write_tile team.board (.tup r c) tile0
          ({ tile0 with revealed := true }) i j hget hidx
        apply boardOK_tileAt
        intro i2 j2 t2 ht2
        rw [hpt i2 j2] at ht2
        by_cases hij : i2 = i ∧ j2 = j
        · rw [if_pos hij] at ht2
          injection ht2 with ht2e
          rw [← ht2e]
          have hin2 : coordIn (s.move_log ++ [({ team_id := team.id, discord_id := u, coord := .tup r c, timestamp := ts } : MoveLog)]) team.id tile0.coordinates.row tile0.coordinates.col = true := by
            rw [coordIn_append]
            apply Bool.or_eq_true_iff.mpr
            right
            unfold coordIn
            rw [List.any_cons, List.any_nil, Bool.or_false]
            rw [hr0, hc0]
            simp
          have hgoal : tileOK (s.move_log ++ [({ team_id := team.id, discord_id := u, coord := .tup r c, timestamp := ts } : MoveLog)]) team.id ({ tile0 with revealed := true }) = true := by
            rw [tileOK_iff]
            show true = coordIn (s.move_log ++ [({ team_id := team.id, discord_id := u, coord := .tup r c, timestamp := ts } : MoveLog)]) team.id tile0.coordinates.row tile0.coordinates.col
            exact hin2.symm
          exact hgoal
        · rw [if_neg hij] at ht2
          have holdOK := tileOK_of_boardOK s.move_log team.id team.board
            (hok team hteam_mem) i2 j2 t2 ht2
          obtain ⟨hi2, hj2, hr2, hc2⟩ := tileAt_wf team.board hwfteam i2 j2 t2 ht2
          apply tileOK_congr s.move_log _ team.id t2 ?_ holdOK
          apply coordIn_snoc_miss
          intro hcon
          obtain ⟨-, hcr, hcc⟩ := hcon
          have hcr2 : r = t2.coordinates.row := hcr
          have hcc2 : c = t2.coordinates.col := hcc
          apply hij
          have hri : letterOfRow i = letterOfRow i2 := by
            rw [← hrl, ← hr2, ← hcr2]
            exact hr0
          constructor
          · exact letterOfRow_inj i2 i hi2 hi hri.symm
          · have hcj : (j : Int) + 1 = (j2 : Int) + 1 := by
              rw [← hcl, ← hc2, ← hcc2]
              exact hc0
            omega
    · rw [hlog, List.pairwise_append]
      refine ⟨hpw, List.pairwise_singleton _ _, ?_⟩
      intro m1 hm1 m2 hm2
      rcases List.mem_cons.mp hm2 with he2 | hnil
      · rw [he2]
        intro hteq12 hq
        have hOK := tileOK_of_boardOK s.move_log team.id team.board
          (hok team hteam_mem) i j tile0 htileat
        rw [tileOK_iff, hrev0] at hOK
        have hcoordIn : coordIn s.move_log team.id
            tile0.coordinates.row tile0.coordinates.col = true := by
          unfold coordIn
          rw [List.any_eq_true]
          refine ⟨m1, hm1, ?_⟩
          have h1 : m1.team_id = team.id := hteq12
          have h2 : m1.coord.row = r := congrArg Prod.fst hq
          have h3 : m1.coord.col = c := congrArg Prod.snd hq
          have hr0b : tile0.coordinates.row = r := hr0
          have hc0b : tile0.coordinates.col = c := hc0
          simp [h1, h2, h3, hr0b, hc0b]
        rw [hcoordIn] at hOK
        exact Bool.false_ne_true hOK
      · exact absurd hnil (List.not_mem_nil m2)

theorem undo_preserves_GInv (s : GState) (tid0 : Int) (hinv : GInv s) :
    GInv (undo_move s tid0).1 := by
  by_cases hsuc : ((undo_move s tid0).2).isUndone = true
  case neg =>
    have hff := undo_move_fail_frame s tid0 (by simpa using hsuc)
    rw [hff]
    exact hinv
  case pos =>
    obtain ⟨hnd, hwf, hcanon, hok, hpw⟩ := hinv
    rcases hu : undo_move s tid0 with ⟨s1, o⟩
    rw [hu] at hsuc
    rcases o with _ | _ | _ | _ | lm <;> simp [UndoOutcome.isUndone] at hsuc
    show GInv s1
    obtain ⟨team, tile, hlast, hfind, hget, hteams, hlog, hcds, hfile⟩ :=
      undo_move_undone_inv s tid0 s1 lm hu
    have hlm_filter : lm ∈ s.move_log.filter (fun m => m.team_id == tid0) :=
      mem_of_getLast_opt _ lm hlast
    have hlm_mem : lm ∈ s.move_log := (List.mem_filter.mp hlm_filter).1
    have hlm_tid : lm.team_id = tid0 := by
      have := (List.mem_filter.mp hlm_filter).2
      simpa using this
    have hteam_mem : team ∈ s.teams := List.mem_of_find?_eq_some hfind
    have hteam_id : team.id = tid0 := by
      have := List.find?_some hfind
      simpa using this
    have hcanonlm : canonCoord lm.coord = true := hcanon lm hlm_mem
    obtain ⟨ch, hd, hch1, hch2, hch3, hch4, hupper⟩ := canonCoord_spec lm.coord hcanonlm
    have hwfteam : wfBoard team.board = true := hwf team hteam_mem
    obtain ⟨hcanonC, hr0, hc0, i, j, hi, hj, htileat, hidx, hrl, hcl⟩ :=
      get_tile_ok_canon team.board lm.coord tile hwfteam hupper hget
    obtain ⟨l1, l2, hsplit, hupd⟩ := find_team_decomp s.teams tid0 team hfind
      (fun t => { t with board := write_tile t.board lm.coord ({ tile with revealed := false }) })
    have hteams2 : s1.teams = l1 ++ ({ team with
        board := write_tile team.board lm.coord ({ tile with revealed := false }) }) :: l2 :=
      hteams.trans hupd
    have hmem_of : ∀ t2 ∈ l1 ++ l2, t2 ∈ s.teams := by
      intro t2 h2
      rw [hsplit]
      rcases List.mem_append.mp h2 with hx | hx
      · exact List.mem_append_left _ hx
      · exact List.mem_append_right _ (List.mem_cons_of_mem _ hx)
    refine ⟨?_, ?_, ?_, ?_, ?_⟩
    · rw [hteams, map_id_update_first_team_by_id s.teams tid0
        (fun t => { t with
          board := write_tile t.board lm.coord ({ tile with revealed := false }) })
        (fun t => rfl)]
      exact hnd
    · intro t1 ht1
      rw [hteams2] at ht1
      rcases List.mem_append.mp ht1 with hm | hm
      · exact hwf t1 (hmem_of t1 (List.mem_append_left _ hm))
      · rcases List.mem_cons.mp hm with he | hm2
        · rw [he]
          exact wfBoard_write_tile team.board lm.coord tile _ hget rfl hwfteam hupper
        · exact hwf t1 (hmem_of t1 (List.mem_append_right _ hm2))
    · intro m hm
      rw [hlog] at hm
      exact hcanon m (List.mem_of_mem_erase hm)
    · intro t1 ht1
      rw [hteams2] at ht1
      rw [hlog]
      have hsub : t1 ∈ l1 ++ l2 ∨ t1 = ({ team with
          board := write_tile team.board lm.coord ({ tile with revealed := false }) }) := by
        rcases List.mem_append.mp ht1 with hm | hm
        · exact Or.inl (List.mem_append_left _ hm)
        · rcases List.mem_cons.mp hm with he | hm2
          · exact Or.inr he
          · exact Or.inl (List.mem_append_right _ hm2)
      rcases hsub with hm | he
      · have hne : t1.id ≠ team.id := id_ne_of_nodup l1 l2 team t1
          (by rw [← hsplit]; exact hnd) hm
        apply boardOK_congr s.move_log _ t1.id t1.board
        · intro r2 c2
          apply coordIn_erase_ne
          intro hcon
          exact hne (hcon.1.symm.trans (hlm_tid.trans hteam_id.symm))
        · exact hok t1 (hmem_of t1 hm)
      · rw [he]
        show boardOK (s.move_log.erase lm) team.id
          (write_tile team.board lm.coord ({ tile with revealed := false })) = true
        obtain ⟨hpt, hlen2, hrows2⟩ := tileAt_write_tile team.board lm.coord tile
          ({ tile with revealed := false }) i j hget hidx
        apply boardOK_tileAt
        intro i2 j2 t2 ht2
        rw [hpt i2 j2] at ht2
        by_cases hij : i2 = i ∧ j2 = j
        · rw [if_pos hij] at ht2
          injection ht2 with ht2e
          rw [← ht2e]
          have hfalse : coordIn (s.move_log.erase lm) lm.team_id
              lm.coord.row lm.coord.col = false :=
            coordIn_erase_self s.move_log lm hlm_mem hpw
          have hgoal : tileOK (s.move_log.erase lm) team.id
              ({ tile with revealed := false }) = true := by
            rw [tileOK_iff]
            show false = coordIn (s.move_log.erase lm) team.id
              tile.coordinates.row tile.coordinates.col
            rw [hr0, hc0, hteam_id, ← hlm_tid]
            exact hfalse.symm
          exact hgoal
        · rw [if_neg hij] at ht2
          have holdOK := tileOK_of_boardOK s.move_log team.id team.board
            (hok team hteam_mem) i2 j2 t2 ht2
          obtain ⟨hi2, hj2, hr2, hc2⟩ := tileAt_wf team.board hwfteam i2 j2 t2 ht2
          apply tileOK_congr s.move_log _ team.id t2 ?_ holdOK
          apply coordIn_erase_ne
          intro hcon
          obtain ⟨-, hcr, hcc⟩ := hcon
          apply hij
          have hri : letterOfRow i = letterOfRow i2 := by
            rw [← hrl, ← hr2, ← hcr]
            exact hr0
          constructor
          · exact letterOfRow_inj i2 i hi2 hi hri.symm
          · have hcj : (j : Int) + 1 = (j2 : Int) + 1 := by
              rw [← hcl, ← hc2, ← hcc]
              exact hc0
            omega
    · rw [hlog]
      first
      | exact List.Pairwise.sublist (List.erase_sublist lm s.move_log) hpw
      | exact hpw.sublist (List.erase_sublist lm s.move_log)
      | exact List.Pairwise.sublist (s.move_log.erase_sublist lm) hpw
      | exact hpw.sublist (s.move_log.erase_sublist lm)

theorem project_preserves_GInv (s : GState) (tid0 : Int) (hinv : GInv s) :
    GInv (project_team s tid0) := by
  obtain ⟨hnd, hwf, hcanon, hok, hpw⟩ := hinv
  have hokT : ∀ t ∈ s.teams, ∃ b1,
      apply_move_log_to_board s.move_log t = .ok ({ t with board := b1 }) ∧
      wfBoard b1 = true ∧ boardOK s.move_log t.id b1 = true :=
    fun t ht => apply_move_log_ok s.move_log t (hwf t ht) (fun m hm _ => hcanon m hm)
  have hmem := mem_update_first_team_by_id s.teams tid0 (fun t =>
      match apply_move_log_to_board s.move_log t with
      | .ok t1 => t1
      | .error _ => t)
  refine ⟨?_, ?_, ?_, ?_, ?_⟩
  · show ((update_first_team_by_id s.teams tid0 (fun t =>
        match apply_move_log_to_board s.move_log t with
        | .ok t1 => t1
        | .error _ => t)).map Team.id).Nodup
    rw [map_id_update_first_team_by_id s.teams tid0 _
      (fun t => project_f_id s.move_log t)]
    exact hnd
  · intro t1 ht1
    have ht1b : t1 ∈ update_first_team_by_id s.teams tid0 (fun t =>
        match apply_move_log_to_board s.move_log t with
        | .ok t1 => t1
        | .error _ => t) := ht1
    rcases hmem t1 ht1b with hin | ⟨t, hfind, htmem, hft⟩
    · exact hwf t1 hin
    · obtain ⟨b1, hok1, hwf1, hbok1⟩ := hokT t htmem
      have ht1e : t1 = { t with board := b1 } :=
        hft.trans (project_f_eta s.move_log t b1 hok1)
      rw [ht1e]
      exact hwf1
  · intro m hm
    exact hcanon m hm
  · intro t1 ht1
    have ht1b : t1 ∈ update_first_team_by_id s.teams tid0 (fun t =>
        match apply_move_log_to_board s.move_log t with
        | .ok t1 => t1
        | .error _ => t) := ht1
    rcases hmem t1 ht1b with hin | ⟨t, hfind, htmem, hft⟩
    · exact hok t1 hin
    · obtain ⟨b1, hok1, hwf1, hbok1⟩ := hokT t htmem
      have ht1e : t1 = { t with board := b1 } :=
        hft.trans (project_f_eta s.move_log t b1 hok1)
      rw [ht1e]
      exact hbok1
  · exact hpw

theorem render_preserves_GInv (s : GState) (tid0 : Int) (hinv : GInv s) :
    GInv (render_team s tid0) := by
  obtain ⟨hnd, hwf, hcanon, hok, hpw⟩ := hinv
  have hmem := mem_update_first_team_by_id s.teams tid0 (fun t =>
      { t with board := (render_board_view s.move_log t.board tid0).1 })
  refine ⟨?_, ?_, ?_, ?_, ?_⟩
  · show ((update_first_team_by_id s.teams tid0 (fun t =>
        { t with board := (render_board_view s.move_log t.board tid0).1 })).map Team.id).Nodup
    rw [map_id_update_first_team_by_id s.teams tid0
      (fun t => { t with board := (render_board_view s.move_log t.board tid0).1 })
      (fun t => rfl)]
    exact hnd
  · intro t1 ht1
    have ht1b : t1 ∈ update_first_team_by_id s.teams tid0 (fun t =>
        { t with board := (render_board_view s.move_log t.board tid0).1 }) := ht1
    rcases hmem t1 ht1b with hin | ⟨t, hfind, htmem, hft⟩
    · exact hwf t1 hin
    · have ht1e : t1 = { t with
          board := t.board.map (fun row => row.map (markIf s.move_log tid0)) } := by
        rw [hft, render_board_fst]
      rw [ht1e]
      exact wfBoard_map t.board _ (markIf_coordinates s.move_log tid0) (hwf t htmem)
  · intro m hm
    exact hcanon m hm
  · intro t1 ht1
    have ht1b : t1 ∈ update_first_team_by_id s.teams tid0 (fun t =>
        { t with board := (render_board_view s.move_log t.board tid0).1 }) := ht1
    rcases hmem t1 ht1b with hin | ⟨t, hfind, htmem, hft⟩
    · exact hok t1 hin
    · have htid : t.id = tid0 := by
        have := List.find?_some hfind
        simpa using this
      have ht1e : t1 = { t with
          board := t.board.map (fun row => row.map (markIf s.move_log tid0)) } := by
        rw [hft, render_board_fst]
      rw [ht1e]
      show boardOK s.move_log t.id
        (t.board.map (fun row => row.map (markIf s.move_log tid0))) = true
      rw [htid]
      exact boardOK_render s.move_log tid0 t.board
        (by rw [← htid]; exact hok t htmem)
  · exact hpw

theorem step_preserves_GInv (s : GState) (op : Op) (h : GInv s) : GInv (step s op) := by
  cases op with
  | reveal a cs now ts => exact select_preserves_GInv s a cs now ts h
  | undo tid => exact undo_preserves_GInv s tid h
  | project tid => exact project_preserves_GInv s tid h
  | render tid => exact render_preserves_GInv s tid h

theorem run_preserves_GInv (ops : List Op) : ∀ s : GState, GInv s → GInv (run s ops) := by
  induction ops with
  | nil =>
    intro s h
    exact h
  | cons op rest ih =>
    intro s h
    exact ih (step s op) (step_preserves_GInv s op h)

/-- C1 is refuted at startup: `bot.py` loads the persisted move log at module
init but never replays it onto the freshly built boards, so with a nonempty
persisted log the tile named by the loaded entry is unrevealed while the entry
is in the Move Log for that team — the revealed flag does not equal log
membership after startup. -/
theorem C1_startup_counterexample :
    ((startup (some [{ team_id := 1, discord_id := 5, coord_row := "A", coord_col := 1, timestamp := "2024-01-01T00:00:00" }]) []).teams.all
      (fun t => boardOK (startup (some [{ team_id := 1, discord_id := 5, coord_row := "A", coord_col := 1, timestamp := "2024-01-01T00:00:00" }]) []).move_log t.id t.board)) = false := by
  decide

/-- C1 (amended): from any global state satisfying the consistency invariant
`GInv` — distinct team ids, well-formed boards, canonical logged coordinates,
every tile's revealed flag equal to membership of the tile's coordinate in its
team's portion of the Move Log, and no team logging the same coordinate twice —
every sequence of reveal (`select`), undo, log-replay projection and render
operations preserves the invariant, so the direct-mutation path and the
log-replay path agree on every board after every operation.  (The original
claim's "after startup" part is false: startup with a nonempty persisted log
does not establish the invariant, see the counterexample.) -/
theorem C1_invariant_preserved (s : GState) (ops : List Op) (h : GInv s) :
    GInv (run s ops) :=
  run_preserves_GInv ops s h

/-- Witness for C1: the invariant holds at a fresh startup with no persisted
log and is preserved across a reveal, a projection and a render. -/
theorem C1_invariant_witness :
    GInv (run (startup none []) [Op.reveal 5 "A,1" 0 "t0", Op.project 1, Op.render 1]) :=
  C1_invariant_preserved (startup none []) [Op.reveal 5 "A,1" 0 "t0", Op.project 1, Op.render 1]
    ⟨by decide, by decide, by decide, by decide, List.Pairwise.nil⟩

end Bingo
